import Mathlib

/-!
Verification of the racealpha rebuild worker.

This file shallowly embeds the core logic of the repository in Lean:

* `split_sql_statements` (rebuild_runner.py): the line-based, quote-aware SQL
  statement splitter;
* `run_phase` / `run_rebuild` (rebuild_runner.py): per-statement execution of a
  phase with benign-error suppression, and the 3-phase rebuild orchestration
  including the shadow-table setup and the phase-1 fatal-error escalation;
* `swap_tables` (rebuild_runner.py): the guarded blue-green table swap;
* `push_table` (app.py): the DuckDB→Postgres bulk push with its empty-table
  short circuit, additive schema sync, source/destination column
  intersection, and NUMERIC overflow clamping;
* the `start_rebuild` endpoint (web_ui.py): rejection of concurrent rebuilds.

Python strings are modelled as `List Char`; database effects are modelled as
explicit state passing plus operation traces; numeric values are modelled as
exact rationals.
-/

namespace RebuildWorker

/-- Text is modelled as a list of characters (`str` in the Python source). -/
abbrev Str := List Char

/-- The ASCII whitespace characters removed by Python `str.strip()`. -/
def pyWs (c : Char) : Bool :=
  c = ' ' || c = '\t' || c = '\n' || c = '\r' || c = Char.ofNat 11 || c = Char.ofNat 12

/-- Python `str.lstrip()`. -/
def lstrip (l : Str) : Str := l.dropWhile pyWs

/-- Python `str.rstrip()`. -/
def rstrip (l : Str) : Str := (l.reverse.dropWhile pyWs).reverse

/-- Python `str.strip()`: remove leading and trailing whitespace. -/
def pystrip (l : Str) : Str := rstrip (lstrip l)

/-- Python `text.split('\n')`: always returns at least one piece. -/
def splitOnNl : Str → List Str
  | [] => [[]]
  | c :: rest =>
    if c = '\n' then [] :: splitOnNl rest
    else
      match splitOnNl rest with
      | [] => [[c]]
      | l :: ls => (c :: l) :: ls

/-- Python `'\n'.join(lines)`. -/
def joinNl : List Str → Str
  | [] => []
  | [l] => l
  | l :: l2 :: ls => l ++ '\n' :: joinNl (l2 :: ls)

/-- Python `str.lower()` (character-wise). -/
def pyLower (l : Str) : Str := l.map Char.toLower

/-- Python `str.upper()` (character-wise). -/
def pyUpper (l : Str) : Str := l.map Char.toUpper

/-- `leadsWith pat l` is true when `pat` is an initial segment of `l`
(Python `l.startswith(pat)`). -/
def leadsWith : Str → Str → Bool
  | [], _ => true
  | _ :: _, [] => false
  | p :: ps, c :: cs => p = c && leadsWith ps cs

/-- Python substring test `pat in l`. -/
def isSub (pat : Str) : Str → Bool
  | [] => pat.isEmpty
  | c :: rest => leadsWith pat (c :: rest) || isSub pat rest

/-- The single-quote character. -/
def quoteCh : Char := Char.ofNat 39

/-- The double-quote character. -/
def dquoteCh : Char := Char.ofNat 34

/-- The backslash character. -/
def backslashCh : Char := Char.ofNat 92

/-- The quote-tracking state of the splitter: `in_string` / `string_char`
in `split_sql_statements`. -/
structure QState where
  inString : Bool
  stringChar : Option Char
deriving DecidableEq, Repr

/-- Initial quote state: `in_string = False`, `string_char = None`. -/
def initQ : QState := ⟨false, none⟩

/-- Whether a character is a single or double quote. -/
def isQuote (c : Char) : Bool := c = quoteCh || c = dquoteCh

/-- The inner character loop of `split_sql_statements`: scan the characters of
a stripped line, toggling the quote state; a quote preceded by a backslash is
ignored (`i == 0 or stripped[i-1] != '\\'`). -/
def scanFrom (st : QState) (prev : Option Char) : Str → QState
  | [] => st
  | c :: rest =>
    let st' :=
      if isQuote c && prev ≠ some backslashCh then
        if !st.inString then QState.mk true (some c)
        else if st.stringChar = some c then QState.mk false st.stringChar
        else st
      else st
    scanFrom st' (some c) rest

/-- Effect of one raw line on the quote state (the scan runs on the stripped
line, as in the source). -/
def scanLine (st : QState) (l : Str) : QState := scanFrom st none (pystrip l)

/-- A line skipped by the splitter: blank after stripping, or a `--` comment. -/
def isBlankOrComment (l : Str) : Bool :=
  (pystrip l).isEmpty || leadsWith ['-', '-'] (pystrip l)

/-- Whether the stripped line ends with the statement terminator `;`. -/
def endsSemi (l : Str) : Bool := (pystrip l).getLast? = some ';'

/-- The filter applied before a statement is recorded:
`if stmt and not all(l.strip().startswith('--') or not l.strip() ...)`. -/
def keepStmt (stmt : Str) : Bool :=
  !stmt.isEmpty && !((splitOnNl stmt).all isBlankOrComment)

/-- The loop state of `split_sql_statements`: accumulated `statements`, the
pending `current` lines, and the quote state. -/
structure SState where
  stmts : List Str
  current : List Str
  q : QState
deriving DecidableEq, Repr

/-- Initial splitter state. -/
def initS : SState := ⟨[], [], initQ⟩

/-- `'\n'.join(current).strip()`: the statement text built at a flush. -/
def mkStmt (cur : List Str) : Str := pystrip (joinNl cur)

/-- One iteration of the line loop of `split_sql_statements`. -/
def stepLine (st : SState) (line : Str) : SState :=
  if isBlankOrComment line then st
  else
    let cur := st.current ++ [line]
    let q' := scanLine st.q line
    if endsSemi line && !q'.inString then
      ⟨st.stmts ++ (if keepStmt (mkStmt cur) then [mkStmt cur] else []), [], q'⟩
    else ⟨st.stmts, cur, q'⟩

/-- The trailing `if current:` block of `split_sql_statements`. -/
def finishSplit (st : SState) : List Str :=
  match st.current with
  | [] => st.stmts
  | _ :: _ => st.stmts ++ (if keepStmt (mkStmt st.current) then [mkStmt st.current] else [])

/-- `split_sql_statements` from rebuild_runner.py. -/
def split_sql_statements (s : Str) : List Str :=
  finishSplit ((splitOnNl s).foldl stepLine initS)

/-- First line of the C5 witness script: `SELECT 'a;` (opens a string literal
that contains the terminator and spans to the next line). -/
def exLine1 : Str := "SELECT ".data ++ [quoteCh] ++ "a;".data

/-- Second line of the C5 witness script: `b;` (still inside the literal). -/
def exLine2 : Str := "b;".data

/-- C5: `split_sql_statements` never ends a statement at a semicolon inside an
open quoted string literal.  For any preceding lines `pre` of a script and any
non-skipped line `l`, if the quote tracker is inside a string literal after
scanning `l`, then processing `l` emits no statement: the accumulated
statement list is unchanged and `l` is retained in the pending buffer, even
when `l` ends with `;`. -/
theorem C5_no_split_inside_string_literal (pre : List Str) (l : Str)
    (hl : isBlankOrComment l = false)
    (hq : (scanLine (pre.foldl stepLine initS).q l).inString = true) :
    (stepLine (pre.foldl stepLine initS) l).stmts = (pre.foldl stepLine initS).stmts ∧
    (stepLine (pre.foldl stepLine initS) l).current
      = (pre.foldl stepLine initS).current ++ [l] := by
  generalize pre.foldl stepLine initS = st at hq ⊢
  unfold stepLine
  simp [hl, hq]

/-- Witness for C5: after the line `SELECT 'a;` the tracker is inside a
single-quoted literal, so the following line `b;` (which ends with `;`) does
not end a statement. -/
theorem C5_witness :
    isBlankOrComment exLine2 = false ∧
    (scanLine ([exLine1].foldl stepLine initS).q exLine2).inString = true ∧
    (stepLine ([exLine1].foldl stepLine initS) exLine2).stmts
      = ([exLine1].foldl stepLine initS).stmts :=
  ⟨by decide, by decide,
    (C5_no_split_inside_string_literal [exLine1] exLine2 (by decide) (by decide)).1⟩

/-! ### The push pipeline (`push_table` in app.py)

A pandas dataframe is modelled column-wise: each column has a name, a pandas
dtype string, and a series of nullable exact rationals (`None`/`NaN` is
`none`; numeric values are idealised as exact rationals).  The remote
PostgreSQL table is modelled by its `information_schema` column records and a
row count. -/

/-- One dataframe column: name, pandas dtype string, and its series. -/
structure DFCol where
  name : Str
  dtype : Str
  series : List (Option ℚ)
deriving DecidableEq, Repr

/-- A dataframe, column-wise. -/
abbrev DF := List DFCol

/-- `len(df)`: the number of rows of the dataframe. -/
def dfRows : DF → Nat
  | [] => 0
  | c :: _ => c.series.length

/-- One remote column record from `information_schema.columns`:
`(column_name, data_type, numeric_precision, numeric_scale)`. -/
structure RemoteCol where
  name : Str
  dtype : Str
  prec : Option ℤ
  scale : Option ℤ
deriving DecidableEq, Repr

/-- The remote destination table: schema plus row count. -/
structure RemoteTable where
  cols : List RemoteCol
  rowCount : Nat
deriving DecidableEq, Repr

/-- `_pg_type_for_series`: map a pandas dtype string to a PostgreSQL type. -/
def pg_type_for_series (dtype : Str) : Str :=
  let d := pyLower dtype
  if isSub "bool".data d then "BOOLEAN".data
  else if isSub "int".data d then "BIGINT".data
  else if isSub "float".data d || isSub "double".data d then "DOUBLE PRECISION".data
  else if isSub "datetime".data d || isSub "timestamp".data d then "TIMESTAMP".data
  else "TEXT".data

/-- First remote column with the given name (`col in remote_columns` /
`remote_columns[col]` on the dict built in source order). -/
def findRemote (cols : List RemoteCol) (n : Str) : Option RemoteCol :=
  cols.find? (fun rc => decide (rc.name = n))

/-- The remote schema after the additive sync step: every local column
missing remotely is added via `ADD COLUMN IF NOT EXISTS` with the type from
`_pg_type_for_series` (recorded here with the lower-cased type name as
`information_schema` reports it, and no numeric precision). -/
def syncedCols (df : DF) (remote : RemoteTable) : List RemoteCol :=
  remote.cols ++
    (df.filter (fun c => (findRemote remote.cols c.name).isNone)).map
      (fun c => ⟨c.name, pyLower (pg_type_for_series c.dtype), none, none⟩)

/-- The clamping bound for a NUMERIC column of precision `p` and scale `s`:
`10 ** (prec - scale) - 10 ** (-scale)` (exact rational arithmetic). -/
def numericLimit (p s : ℤ) : ℚ := 10 ^ (p - s) - 10 ^ (-s)

/-- The limit-table entry contributed by one remote column: present exactly
when the data type is `numeric` with declared precision and scale. -/
def numericEntry (rc : RemoteCol) : Option (Str × ℚ) :=
  match rc.prec, rc.scale with
  | some p, some s =>
      if rc.dtype = "numeric".data then some (rc.name, numericLimit p s) else none
  | _, _ => none

/-- `numeric_limits`: the per-column clamping bounds, collected for every
remote column whose data type is `numeric` with declared precision and
scale. -/
def numericLimits (cols : List RemoteCol) : List (Str × ℚ) :=
  cols.filterMap numericEntry

/-- `common_cols`: the local columns that also exist remotely (after the
schema sync), in local order. -/
def commonCols (df : DF) (cols : List RemoteCol) : DF :=
  df.filter (fun c => (findRemote cols c.name).isSome)

/-- Clamp a single value: a value whose absolute magnitude strictly exceeds
the bound becomes NULL (`df.loc[mask, col] = np.nan`); other values pass
through unchanged, and NULLs stay NULL. -/
def clampVal (limit : ℚ) (v : Option ℚ) : Option ℚ :=
  match v with
  | some x => if |x| > limit then none else some x
  | none => none

/-- Whether a value is counted by the clamping mask
(`mask = df[col].abs() > max_abs`; `NaN` compares false). -/
def exceedsLimit (limit : ℚ) (v : Option ℚ) : Bool :=
  match v with
  | some x => decide (|x| > limit)
  | none => false

/-- Apply clamping to one column: if the column has a NUMERIC bound, replace
overflowing values with NULL and count them (`n_bad = mask.sum()`); columns
without a bound are untouched.  (The integer/boolean dtype casts of the
source are value-preserving safe casts and apply only to non-`numeric`
destination columns, so they are not modelled separately.) -/
def clampCol (limits : List (Str × ℚ)) (c : DFCol) : DFCol × Nat :=
  match limits.find? (fun p => decide (p.1 = c.name)) with
  | some pr =>
      (⟨c.name, c.dtype, c.series.map (clampVal pr.2)⟩,
       (c.series.filter (exceedsLimit pr.2)).length)
  | none => (c, 0)

/-- The observable outcome of `push_table`: result status, final remote
state, whether a destination connection was opened, whether the remote table
was truncated, the COPY column list, the dataframe as sent, the clamp count,
and the pre-push remote row count. -/
structure PushOutcome where
  status : Str
  reason : Option Str
  remote : RemoteTable
  connected : Bool
  truncated : Bool
  copyCols : List Str
  sent : DF
  clampedTotal : Nat
  remoteBefore : Nat
deriving DecidableEq, Repr

/-- `push_table` from app.py (the successful path is reported with status
`"ok"`; the source returns a result dict without a status key there).  An
empty local table returns `status = "skipped"` before any destination
connection is opened; otherwise the remote table is truncated, the schema is
additively synced, only the source/destination column intersection is pushed,
and NUMERIC overflow values are clamped to NULL and counted. -/
def push_table (df : DF) (remote : RemoteTable) : PushOutcome :=
  if dfRows df = 0 then
    ⟨"skipped".data, some "empty table".data, remote, false, false, [], [], 0, 0⟩
  else
    let remoteBefore := remote.rowCount
    let cols1 := syncedCols df remote
    let limits := numericLimits cols1
    let common := commonCols df cols1
    let clamped := common.map (clampCol limits)
    let sent := clamped.map Prod.fst
    ⟨"ok".data, none,
     ⟨cols1, dfRows df⟩,   -- truncated, then all local rows are copied in
     true, true,
     sent.map DFCol.name,
     sent,
     (clamped.map Prod.snd).sum,
     remoteBefore⟩

/-- If the first remote column named `n` is a NUMERIC column with precision
`p` and scale `s`, then the computed limit table maps `n` to
`10 ^ (p - s) - 10 ^ (-s)`. -/
theorem numericEntry_name (rc : RemoteCol) (pr : Str × ℚ)
    (h : numericEntry rc = some pr) : pr.1 = rc.name := by
  unfold numericEntry at h
  split at h
  · split at h
    · cases h
      rfl
    · exact absurd h (by simp)
  · exact absurd h (by simp)

theorem numericLimits_find (cols : List RemoteCol) (n : Str) (p s : ℤ)
    (h : findRemote cols n = some ⟨n, "numeric".data, some p, some s⟩) :
    (numericLimits cols).find? (fun pr => decide (pr.1 = n)) = some (n, numericLimit p s) := by
  induction cols with
  | nil => simp [findRemote] at h
  | cons rc t ih =>
    rw [findRemote, List.find?_cons] at h
    rw [numericLimits, List.filterMap_cons]
    cases hn : decide (rc.name = n) with
    | false =>
      rw [hn] at h
      have ht : (numericLimits t).find? (fun pr => decide (pr.1 = n))
          = some (n, numericLimit p s) := ih h
      cases he : numericEntry rc with
      | none => exact ht
      | some pr =>
        rw [List.find?_cons]
        have hprn : decide (pr.1 = n) = false := by
          rw [numericEntry_name rc pr he]
          exact hn
        rw [hprn]
        exact ht
    | true =>
      rw [hn] at h
      injection h with h'
      subst h'
      simp [numericEntry, numericLimits, List.find?_cons]

/-- If `find?` succeeds on a list it succeeds identically on any extension. -/
theorem find?_append_left {α : Type} (l₁ l₂ : List α) (p : α → Bool) (a : α)
    (h : l₁.find? p = some a) : (l₁ ++ l₂).find? p = some a := by
  induction l₁ with
  | nil => simp at h
  | cons x t ih =>
    rw [List.find?_cons] at h
    rw [List.cons_append, List.find?_cons]
    cases hp : p x
    · rw [hp] at h
      exact ih h
    · rw [hp] at h
      exact h

/-- The name of a clamped column is the name of the original column. -/
theorem clampCol_name (limits : List (Str × ℚ)) (c : DFCol) :
    (clampCol limits c).1.name = c.name := by
  unfold clampCol
  cases limits.find? (fun p => decide (p.1 = c.name)) <;> simp

/-- C4: during a non-empty push, a destination NUMERIC column with declared
precision `p` and scale `s` gets the clamping bound exactly
`10 ^ (p - s) - 10 ^ (-s)`; the column is sent with every value of absolute
magnitude strictly above that bound replaced by NULL and every other value
unchanged; and the reported clamped total is the sum over the pushed columns
of the per-column counts of strictly-exceeding values, this column
contributing exactly its count. -/
theorem C4_numeric_clamp_bound (df : DF) (remote : RemoteTable) (c : DFCol) (p s : ℤ)
    (h0 : ¬ dfRows df = 0)
    (hc : c ∈ df)
    (hrc : findRemote remote.cols c.name = some ⟨c.name, "numeric".data, some p, some s⟩) :
    (numericLimits (syncedCols df remote)).find? (fun pr => decide (pr.1 = c.name))
        = some (c.name, (10 : ℚ) ^ (p - s) - (10 : ℚ) ^ (-s)) ∧
    DFCol.mk c.name c.dtype
        (c.series.map (clampVal ((10 : ℚ) ^ (p - s) - (10 : ℚ) ^ (-s))))
      ∈ (push_table df remote).sent ∧
    (∀ x : ℚ,
      (|x| > (10 : ℚ) ^ (p - s) - (10 : ℚ) ^ (-s) →
        clampVal ((10 : ℚ) ^ (p - s) - (10 : ℚ) ^ (-s)) (some x) = none) ∧
      (|x| ≤ (10 : ℚ) ^ (p - s) - (10 : ℚ) ^ (-s) →
        clampVal ((10 : ℚ) ^ (p - s) - (10 : ℚ) ^ (-s)) (some x) = some x)) ∧
    (push_table df remote).clampedTotal
        = ((commonCols df (syncedCols df remote)).map
            (fun d => (clampCol (numericLimits (syncedCols df remote)) d).2)).sum ∧
    (clampCol (numericLimits (syncedCols df remote)) c).2
        = (c.series.filter
            (exceedsLimit ((10 : ℚ) ^ (p - s) - (10 : ℚ) ^ (-s)))).length := by
  have hsync : findRemote (syncedCols df remote) c.name
      = some ⟨c.name, "numeric".data, some p, some s⟩ :=
    find?_append_left _ _ _ _ hrc
  have hlim := numericLimits_find (syncedCols df remote) c.name p s hsync
  have hBnd : numericLimit p s = (10 : ℚ) ^ (p - s) - (10 : ℚ) ^ (-s) := rfl
  rw [hBnd] at hlim
  have hcommon : c ∈ commonCols df (syncedCols df remote) := by
    rw [commonCols, List.mem_filter]
    exact ⟨hc, by rw [hsync]; rfl⟩
  have hclamp : clampCol (numericLimits (syncedCols df remote)) c
      = (⟨c.name, c.dtype,
          c.series.map (clampVal ((10 : ℚ) ^ (p - s) - (10 : ℚ) ^ (-s)))⟩,
         (c.series.filter
           (exceedsLimit ((10 : ℚ) ^ (p - s) - (10 : ℚ) ^ (-s)))).length) := by
    rw [clampCol, hlim]
  have hval : ∀ x : ℚ, clampVal ((10 : ℚ) ^ (p - s) - (10 : ℚ) ^ (-s)) (some x)
      = if |x| > (10 : ℚ) ^ (p - s) - (10 : ℚ) ^ (-s) then none else some x := fun _ => rfl
  refine ⟨hlim, ?_, ?_, ?_, ?_⟩
  · unfold push_table
    rw [if_neg h0]
    simp only [List.map_map, List.mem_map, Function.comp]
    exact ⟨c, hcommon, by rw [hclamp]⟩
  · intro x
    constructor
    · intro hx
      rw [hval, if_pos hx]
    · intro hx
      rw [hval, if_neg (not_lt.mpr hx)]
  · unfold push_table
    rw [if_neg h0]
    simp only [List.map_map]
    rfl
  · rw [hclamp]

/-- Witness column for C4: `total` with the two values `1234.56` and
`500.00`. -/
def exCol : DFCol := ⟨"total".data, "float64".data, [some ((123456 : ℚ) / 100), some 500]⟩

/-- Witness dataframe for C4. -/
def exDF : DF := [exCol]

/-- Witness remote table for C4: `total` is `numeric(5,2)`. -/
def exRemote : RemoteTable :=
  ⟨[⟨"total".data, "numeric".data, some 5, some 2⟩], 10000⟩

/-- Witness for C4: for precision 5 and scale 2 the bound is `999.99`;
`1234.56` is sent as NULL and counted once, `500.00` passes unchanged. -/
theorem C4_witness :
    (numericLimits (syncedCols exDF exRemote)).find?
        (fun pr => decide (pr.1 = "total".data))
      = some ("total".data, (10 : ℚ) ^ ((5 : ℤ) - 2) - (10 : ℚ) ^ (-(2 : ℤ))) ∧
    (10 : ℚ) ^ ((5 : ℤ) - 2) - (10 : ℚ) ^ (-(2 : ℤ)) = (99999 : ℚ) / 100 ∧
    DFCol.mk "total".data "float64".data [none, some 500]
      ∈ (push_table exDF exRemote).sent ∧
    (push_table exDF exRemote).clampedTotal = 1 := by
  have h := C4_numeric_clamp_bound exDF exRemote exCol 5 2
      (by decide) (by simp [exDF]) (by decide)
  obtain ⟨h1, h2, _, h4, h5⟩ := h
  have hb : (10 : ℚ) ^ ((5 : ℤ) - 2) - (10 : ℚ) ^ (-(2 : ℤ)) = (99999 : ℚ) / 100 := by
    norm_num
  have habs : |(123456 : ℚ) / 100| = (123456 : ℚ) / 100 :=
    abs_of_nonneg (by norm_num)
  have habs5 : |(500 : ℚ)| = (500 : ℚ) := abs_of_nonneg (by norm_num)
  refine ⟨h1, hb, ?_, ?_⟩
  · have hmap : (exCol.series.map
        (clampVal ((10 : ℚ) ^ ((5 : ℤ) - 2) - (10 : ℚ) ^ (-(2 : ℤ)))))
        = [none, some 500] := by
      rw [hb]
      show [clampVal ((99999 : ℚ) / 100) (some ((123456 : ℚ) / 100)),
            clampVal ((99999 : ℚ) / 100) (some 500)] = [none, some 500]
      have e1 : clampVal ((99999 : ℚ) / 100) (some ((123456 : ℚ) / 100)) = none := by
        show (if |(123456 : ℚ) / 100| > (99999 : ℚ) / 100 then none
              else some ((123456 : ℚ) / 100)) = none
        rw [if_pos (by rw [habs]; norm_num)]
      have e2 : clampVal ((99999 : ℚ) / 100) (some (500 : ℚ)) = some 500 := by
        show (if |(500 : ℚ)| > (99999 : ℚ) / 100 then none else some (500 : ℚ)) = some 500
        rw [if_neg (by rw [habs5]; norm_num)]
      rw [e1, e2]
    rw [hmap] at h2
    exact h2
  · rw [h4]
    have hcc : commonCols exDF (syncedCols exDF exRemote) = [exCol] := by
      rw [commonCols, exDF, List.filter_cons, List.filter_nil]
      rw [if_pos (by decide)]
    rw [hcc]
    simp only [List.map_cons, List.map_nil, List.sum_cons, List.sum_nil]
    rw [h5, hb]
    show (List.filter (exceedsLimit ((99999 : ℚ) / 100))
        [some ((123456 : ℚ) / 100), some (500 : ℚ)]).length + 0 = 1
    have f1 : exceedsLimit ((99999 : ℚ) / 100) (some ((123456 : ℚ) / 100)) = true := by
      show decide (|(123456 : ℚ) / 100| > (99999 : ℚ) / 100) = true
      rw [decide_eq_true_eq]
      rw [habs]
      norm_num
    have f2 : exceedsLimit ((99999 : ℚ) / 100) (some (500 : ℚ)) = false := by
      show decide (|(500 : ℚ)| > (99999 : ℚ) / 100) = false
      rw [decide_eq_false_iff_not]
      rw [habs5]
      norm_num
    rw [List.filter_cons, f1, List.filter_cons, f2, List.filter_nil]
    rfl

/-- C8: the pushed column set (and hence the COPY statement column list) is
the intersection of local and post-sync remote columns: every pushed column
name is a local column name that exists remotely after the sync, and a
destination-only column (present remotely, absent locally) is never pushed. -/
theorem C8_push_intersection (df : DF) (remote : RemoteTable) (n : Str)
    (h0 : ¬ dfRows df = 0) :
    (∀ m, m ∈ (push_table df remote).copyCols →
      m ∈ df.map DFCol.name ∧ (findRemote (syncedCols df remote) m).isSome = true) ∧
    (n ∉ df.map DFCol.name → n ∉ (push_table df remote).copyCols) := by
  have hcopy : (push_table df remote).copyCols
      = (commonCols df (syncedCols df remote)).map
          (fun c => (clampCol (numericLimits (syncedCols df remote)) c).1.name) := by
    unfold push_table
    rw [if_neg h0]
    simp [List.map_map, Function.comp]
  constructor
  · intro m hm
    rw [hcopy] at hm
    rcases List.mem_map.mp hm with ⟨c, hc, hname⟩
    rw [clampCol_name] at hname
    rcases List.mem_filter.mp hc with ⟨hcdf, hcrem⟩
    subst hname
    exact ⟨List.mem_map_of_mem _ hcdf, by simpa using hcrem⟩
  · intro hn hmem
    rw [hcopy] at hmem
    rcases List.mem_map.mp hmem with ⟨c, hc, hname⟩
    rw [clampCol_name] at hname
    rcases List.mem_filter.mp hc with ⟨hcdf, _⟩
    exact hn (hname ▸ List.mem_map_of_mem DFCol.name hcdf)

/-- Witness remote table for C8: destination has an extra historical column
`legacy_note` absent from the source. -/
def exRemoteLegacy : RemoteTable :=
  ⟨[⟨"id".data, "bigint".data, none, none⟩,
    ⟨"total".data, "numeric".data, some 8, some 2⟩,
    ⟨"legacy_note".data, "text".data, none, none⟩], 10000⟩

/-- Witness dataframe for C8: local columns `id` and `total` only. -/
def exDFLegacy : DF :=
  [⟨"id".data, "int64".data, [some 1]⟩, ⟨"total".data, "float64".data, [some 5]⟩]

/-- Witness for C8: `legacy_note` is destination-only, so it is not part of
the pushed column list. -/
theorem C8_witness :
    ¬ "legacy_note".data ∈ exDFLegacy.map DFCol.name ∧
    ¬ "legacy_note".data ∈ (push_table exDFLegacy exRemoteLegacy).copyCols :=
  ⟨by decide,
   (C8_push_intersection exDFLegacy exRemoteLegacy "legacy_note".data (by decide)).2
     (by decide)⟩

/-- C10: pushing an empty local table is skipped before any destination
connection is opened: the outcome is `status = "skipped"` with reason
`"empty table"`, no connection, no truncation, no columns, nothing sent, and
the remote table is entirely unchanged. -/
theorem C10_empty_push_skipped (df : DF) (remote : RemoteTable)
    (h0 : dfRows df = 0) :
    push_table df remote
      = ⟨"skipped".data, some "empty table".data, remote, false, false, [], [], 0, 0⟩ := by
  unfold push_table
  rw [if_pos h0]

/-- Witness for C10: a dataframe with a column but zero rows is skipped and
the remote table is untouched. -/
theorem C10_witness :
    push_table [⟨"id".data, "int64".data, []⟩] exRemoteLegacy
      = ⟨"skipped".data, some "empty table".data, exRemoteLegacy,
         false, false, [], [], 0, 0⟩ :=
  C10_empty_push_skipped [⟨"id".data, "int64".data, []⟩] exRemoteLegacy (by decide)

/-! ### The table swap (`swap_tables` in rebuild_runner.py)

The DuckDB database is modelled as an association list from table names to
tables (column list plus row count).  `swap_tables` reads the shadow row
count first; the DDL it issues afterwards is recorded as an operation
trace so that "no drop or rename was issued" is directly expressible. -/

/-- A DuckDB table: column names and row count. -/
structure DuckTable where
  cols : List Str
  rows : Nat
deriving DecidableEq, Repr

/-- A DuckDB database: named tables. -/
abbrev Duck := List (Str × DuckTable)

/-- Look a table up by name. -/
def lookupTable (db : Duck) (n : Str) : Option DuckTable :=
  (db.find? (fun p => decide (p.1 = n))).map Prod.snd

/-- `DROP TABLE IF EXISTS n`. -/
def dropTable (db : Duck) (n : Str) : Duck :=
  db.filter (fun p => !decide (p.1 = n))

/-- `ALTER TABLE a RENAME TO b`. -/
def renameTable (db : Duck) (a b : Str) : Duck :=
  db.map (fun p => if p.1 = a then (b, p.2) else p)

/-- The DDL statements `swap_tables` can issue, in source order. -/
inductive SwapOp where
  | dropOld
  | renameProdToOld
  | renameNewToProd
deriving DecidableEq, Repr

/-- The production table name. -/
def prodName : Str := "race_training_dataset".data

/-- The shadow table name. -/
def newName : Str := "race_training_dataset_new".data

/-- The backup table name. -/
def oldName : Str := "race_training_dataset_old".data

/-- The error message raised on an empty shadow table. -/
def emptySwapErr : Str := "race_training_dataset_new is empty — cannot swap!".data

/-- `swap_tables` from rebuild_runner.py: read the shadow row count; if the
shadow table is missing the count query fails, and if the count is zero an
explicit `RuntimeError` is raised — in both cases before any DDL.  Otherwise
the old backup is dropped, production is renamed to the backup name, and the
shadow is renamed to the production name.  Returns (error, final database,
issued DDL). -/
def swap_tables (db : Duck) : Option Str × Duck × List SwapOp :=
  match lookupTable db newName with
  | none => (some "no such table".data, db, [])
  | some t =>
    if t.rows = 0 then (some emptySwapErr, db, [])
    else
      let db1 := dropTable db oldName
      let db2 := renameTable db1 prodName oldName
      let db3 := renameTable db2 newName prodName
      (none, db3, [SwapOp.dropOld, SwapOp.renameProdToOld, SwapOp.renameNewToProd])

/-- C1: when the shadow table `race_training_dataset_new` exists with zero
rows, `swap_tables` raises the explicit refusal with no drop or rename
issued and the database — in particular the production table and any
existing backup — completely unchanged; when the shadow row count is
non-zero, no error is raised and the swap DDL is issued. -/
theorem C1_swap_guard (db : Duck) (t : DuckTable)
    (h : lookupTable db newName = some t) :
    (t.rows = 0 →
      swap_tables db = (some emptySwapErr, db, []) ∧
      lookupTable (swap_tables db).2.1 prodName = lookupTable db prodName ∧
      lookupTable (swap_tables db).2.1 oldName = lookupTable db oldName) ∧
    (t.rows ≠ 0 →
      (swap_tables db).1 = none ∧
      (swap_tables db).2.2
        = [SwapOp.dropOld, SwapOp.renameProdToOld, SwapOp.renameNewToProd]) := by
  constructor
  · intro h0
    have hs : swap_tables db = (some emptySwapErr, db, []) := by
      unfold swap_tables
      rw [h]
      dsimp only
      rw [if_pos h0]
    exact ⟨hs, by rw [hs], by rw [hs]⟩
  · intro h0
    unfold swap_tables
    rw [h]
    dsimp only
    rw [if_neg h0]
    exact ⟨rfl, rfl⟩

/-- Witness database for C1: production with rows, an old backup, and an
empty shadow table. -/
def exDuckEmptyShadow : Duck :=
  [(prodName, ⟨["race_id".data], 100⟩),
   (oldName, ⟨["race_id".data], 90⟩),
   (newName, ⟨["race_id".data], 0⟩)]

/-- Witness for C1: swapping with an empty shadow table returns the explicit
error, issues no DDL, and leaves the database unchanged. -/
theorem C1_witness :
    swap_tables exDuckEmptyShadow = (some emptySwapErr, exDuckEmptyShadow, []) :=
  ((C1_swap_guard exDuckEmptyShadow ⟨["race_id".data], 0⟩ (by decide)).1 rfl).1

/-! ### Phase execution and the rebuild pipeline (rebuild_runner.py)

A phase script is modelled as the list of its split statements, each paired
with its execution outcome against the database (`none` = success,
`some msg` = `con.execute` raises an error with message `msg`).  The
database effects of the opaque SQL are abstracted into the environment;
the control flow of `run_phase` and `run_rebuild` is modelled exactly. -/

/-- One SQL statement of a phase script together with its execution
outcome. -/
structure Stmt where
  sql : Str
  outcome : Option Str
deriving DecidableEq, Repr

/-- One entry of a phase's error list:
`{"statement": i + 1, "error": error_msg, "sql_preview": stmt[:200]}`. -/
structure ErrEntry where
  statement : Nat
  error : Str
  sql_preview : Str
deriving DecidableEq, Repr

/-- The benign-error suppression of `run_phase`:
`"does not exist" in error_msg.lower() and "DROP COLUMN" in stmt.upper()`. -/
def benignError (sql : Str) (msg : Str) : Bool :=
  isSub "does not exist".data (pyLower msg) && isSub "DROP COLUMN".data (pyUpper sql)

/-- The statement loop of `run_phase`, starting at 0-based position `i`:
returns (completed count, error entries, 1-based indices of the statements
that were executed).  Every statement is executed; a failure is either
suppressed as benign (and counted as completed) or recorded, and the loop
continues to the next statement either way. -/
def runStmts (i : Nat) : List Stmt → Nat × List ErrEntry × List Nat
  | [] => (0, [], [])
  | s :: rest =>
    let r := runStmts (i + 1) rest
    match s.outcome with
    | none => (r.1 + 1, r.2.1, (i + 1) :: r.2.2)
    | some msg =>
      if benignError s.sql msg then (r.1 + 1, r.2.1, (i + 1) :: r.2.2)
      else (r.1, ⟨i + 1, msg, s.sql.take 200⟩ :: r.2.1, (i + 1) :: r.2.2)

/-- The aggregate result of one phase, as built by `run_phase` (the
`skipped` flag is set by `run_rebuild` for skipped phases). -/
structure PhaseResult where
  phase : Nat
  name : Str
  statements_total : Nat
  statements_completed : Nat
  errors : List ErrEntry
  skipped : Bool
deriving DecidableEq, Repr

/-- `run_phase` from rebuild_runner.py: execute the phase's statements in
order and aggregate the result; also returns the executed-statement trace
(elapsed-time fields are not modelled). -/
def run_phase (phaseIdx : Nat) (name : Str) (stmts : List Stmt) :
    PhaseResult × List Nat :=
  let r := runStmts 0 stmts
  (⟨phaseIdx + 1, name, stmts.length, r.1, r.2.1, false⟩, r.2.2)

/-- `runStmts` on a list of succeeding statements completes all of them with
no errors, executing each in order. -/
theorem runStmts_all_success (ls : List Stmt) (i : Nat)
    (h : ∀ s ∈ ls, s.outcome = none) :
    runStmts i ls = (ls.length, [], List.range' (i + 1) ls.length) := by
  induction ls generalizing i with
  | nil => rfl
  | cons s rest ih =>
    have hs : s.outcome = none := h s (List.mem_cons_self s rest)
    have hr := ih (i + 1) (fun x hx => h x (List.mem_cons_of_mem s hx))
    rw [runStmts, hr, hs]
    rw [List.length_cons, List.range'_succ]

/-- `runStmts` distributes over list append, shifting the position. -/
theorem runStmts_append (xs ys : List Stmt) (i : Nat) :
    runStmts i (xs ++ ys)
      = ((runStmts i xs).1 + (runStmts (i + xs.length) ys).1,
         (runStmts i xs).2.1 ++ (runStmts (i + xs.length) ys).2.1,
         (runStmts i xs).2.2 ++ (runStmts (i + xs.length) ys).2.2) := by
  induction xs generalizing i with
  | nil => simp [runStmts]
  | cons s rest ih =>
    rw [List.cons_append, runStmts, runStmts, ih (i + 1)]
    have harith : i + 1 + rest.length = i + (s :: rest).length := by
      simp [List.length_cons]
      omega
    rw [harith]
    cases ho : s.outcome with
    | none =>
      dsimp only
      simp only [Prod.mk.injEq, List.cons_append, eq_self_iff_true, and_true, true_and]
      omega
    | some msg =>
      dsimp only
      cases hb : benignError s.sql msg
      · simp only [Bool.false_eq_true, if_false, Prod.mk.injEq, List.cons_append,
          eq_self_iff_true, and_true, true_and]
      · simp only [if_true, Prod.mk.injEq, List.cons_append,
          eq_self_iff_true, and_true, true_and]
        omega

/-- C3: in a phase of `n` statements where exactly one statement — the one
at 1-based index `k = pre.length + 1` — raises a non-benign error and all
others succeed, `run_phase` reports `statements_total = n`,
`statements_completed = n - 1`, exactly one error entry whose `statement`
field is `k`, and every statement is still executed (the executed trace is
`1, …, n`, so the statements after `k` run as well). -/
theorem C3_statement_isolation (idx : Nat) (name : Str)
    (pre post : List Stmt) (bad : Stmt) (e : Str)
    (hpre : ∀ s ∈ pre, s.outcome = none)
    (hpost : ∀ s ∈ post, s.outcome = none)
    (hbad : bad.outcome = some e)
    (hnb : benignError bad.sql e = false) :
    (run_phase idx name (pre ++ bad :: post)).1.statements_total
        = pre.length + post.length + 1 ∧
    (run_phase idx name (pre ++ bad :: post)).1.statements_completed
        = pre.length + post.length ∧
    (run_phase idx name (pre ++ bad :: post)).1.errors
        = [⟨pre.length + 1, e, bad.sql.take 200⟩] ∧
    (run_phase idx name (pre ++ bad :: post)).2
        = List.range' 1 (pre.length + post.length + 1) := by
  have hbadrun : runStmts pre.length (bad :: post)
      = ((0 : Nat) + post.length,
         ([⟨pre.length + 1, e, bad.sql.take 200⟩] : List ErrEntry),
         (pre.length + 1) :: List.range' (pre.length + 1 + 1) post.length) := by
    rw [runStmts, runStmts_all_success post (pre.length + 1) hpost, hbad]
    dsimp only
    rw [hnb]
    simp
  have hmain := runStmts_append pre (bad :: post) 0
  rw [runStmts_all_success pre 0 hpre] at hmain
  rw [show (0 : Nat) + pre.length = pre.length by omega] at hmain
  rw [hbadrun] at hmain
  have hrange : List.range' (0 + 1) pre.length
        ++ (pre.length + 1) :: List.range' (pre.length + 1 + 1) post.length
      = List.range' 1 (pre.length + post.length + 1) := by
    rw [show (pre.length + 1) :: List.range' (pre.length + 1 + 1) post.length
        = List.range' (pre.length + 1) (post.length + 1) from
        (List.range'_succ (pre.length + 1) post.length 1).symm]
    rw [show (0 : Nat) + 1 = 1 by omega]
    rw [show pre.length + 1 = 1 + pre.length by omega]
    rw [List.range'_append_1]
    congr 1
    omega
  rw [hrange] at hmain
  refine ⟨?_, ?_, ?_, ?_⟩
  · show (pre ++ bad :: post).length = pre.length + post.length + 1
    simp only [List.length_append, List.length_cons]
    omega
  · show (runStmts 0 (pre ++ bad :: post)).1 = pre.length + post.length
    rw [hmain]
    show pre.length + (0 + post.length) = pre.length + post.length
    omega
  · show (runStmts 0 (pre ++ bad :: post)).2.1 = _
    rw [hmain]
    show ([] : List ErrEntry)
        ++ [⟨pre.length + 1, e, bad.sql.take 200⟩] = _
    rw [List.nil_append]
  · show (runStmts 0 (pre ++ bad :: post)).2.2 = _
    rw [hmain]

/-- Witness statements for C3: three statements, the second of which raises
a non-benign error. -/
def exStmtOk1 : Stmt := ⟨"CREATE TABLE t (x INT);".data, none⟩

/-- Second witness statement: raises `boom` (not a benign error). -/
def exStmtBad : Stmt := ⟨"UPDATE t SET x = 1;".data, some "boom".data⟩

/-- Third witness statement: succeeds. -/
def exStmtOk3 : Stmt := ⟨"UPDATE t SET x = 2;".data, none⟩

/-- Witness for C3: with 3 statements where statement 2 fails, the phase
reports 3 total, 2 completed, one error entry for statement 2, and all three
statements (in particular statement 3) execute. -/
theorem C3_witness :
    (run_phase 0 "Base Insert + Career Stats".data
        [exStmtOk1, exStmtBad, exStmtOk3]).1.statements_total = 3 ∧
    (run_phase 0 "Base Insert + Career Stats".data
        [exStmtOk1, exStmtBad, exStmtOk3]).1.statements_completed = 2 ∧
    (run_phase 0 "Base Insert + Career Stats".data
        [exStmtOk1, exStmtBad, exStmtOk3]).1.errors
      = [⟨2, "boom".data, exStmtBad.sql.take 200⟩] ∧
    (run_phase 0 "Base Insert + Career Stats".data
        [exStmtOk1, exStmtBad, exStmtOk3]).2 = [1, 2, 3] := by
  have h := C3_statement_isolation 0 "Base Insert + Career Stats".data
      [exStmtOk1] [exStmtOk3] exStmtBad "boom".data
      (by decide) (by decide) (by decide) (by decide)
  simpa using h

/-- The fixed display name of phase 1 (`PHASES[0]["name"]`). -/
def phase1Name : Str := "Base Insert + Career Stats".data

/-- The fixed display name of phase 2. -/
def phase2Name : Str := "Advanced Features & Interactions".data

/-- The fixed display name of phase 3. -/
def phase3Name : Str := "Validation + Leakage Removal".data

/-- `INTERMEDIATE_COLUMNS` from rebuild_runner.py: the scaffolding columns
phase 2 needs and phase 3 drops. -/
def INTERMEDIATE_COLUMNS : List Str :=
  ["position_800m".data, "position_400m".data, "position_at_800".data,
   "position_at_400".data, "position_at_end".data,
   "sectional_position_800m".data, "sectional_position_400m".data,
   "sectional_position_200m".data,
   "pos_improvement_800_finish".data, "pos_improvement_400_finish".data,
   "pos_improvement_800_400".data,
   "best_late_improvement".data,
   "position_change_800_400".data, "position_change_400_finish".data,
   "closing_ability_score".data, "early_speed_score".data,
   "sustained_run_score".data,
   "closing_power_score".data, "finishing_kick_consistency".data,
   "speed_figure".data, "speed_rating".data, "early_speed_pct".data,
   "strong_finish_pct".data,
   "pos_volatility_800".data,
   "early_speed_rating".data, "finish_speed_rating".data,
   "elo_races_count".data, "feature_maturity_score".data,
   "rail_out_metres".data, "is_rail_true".data, "rail_out_x_barrier".data,
   "effective_barrier".data, "barrier_advantage_rail_adjusted".data]

/-- The source tables required before a rebuild may start. -/
def requiredTables : List Str :=
  ["race_results".data, "races".data, "race_training_dataset".data]

/-- The shadow table `race_training_dataset_new` as (re)created by
`run_rebuild`. -/
structure ShadowTable where
  cols : List Str
  rows : Nat
deriving DecidableEq, Repr

/-- The shadow column set: production's current columns
(`CREATE TABLE … AS SELECT * FROM race_training_dataset WHERE 1=0`)
followed by every intermediate column not already present. -/
def setupShadowCols (prodCols : List Str) : List Str :=
  prodCols ++ INTERMEDIATE_COLUMNS.filter (fun c => !decide (c ∈ prodCols))

/-- The environment of a rebuild run: which tables exist, production's
column list, the split statements of the three phase scripts with their
outcomes, and the final shadow row/column counts read back after the
phases. -/
structure RebuildEnv where
  tables : List Str
  prodCols : List Str
  phase1 : List Stmt
  phase2 : List Stmt
  phase3 : List Stmt
  finalRows : Nat
  finalCols : Nat
deriving DecidableEq, Repr

/-- The database operations `run_rebuild` issues, in order. -/
inductive RebuildOp where
  | dropNewTable
  | createNewFromProd
  | addIntermediate (c : Str)
  | execPhaseStmt (phase : Nat) (idx : Nat)
deriving DecidableEq, Repr

/-- The shadow-table setup operations: drop any stale
`race_training_dataset_new`, create the fresh empty shadow from production,
then add the missing intermediate columns. -/
def setupOps (env : RebuildEnv) : List RebuildOp :=
  (if newName ∈ env.tables then [RebuildOp.dropNewTable] else [])
    ++ [RebuildOp.createNewFromProd]
    ++ (INTERMEDIATE_COLUMNS.filter
          (fun c => !decide (c ∈ env.prodCols))).map RebuildOp.addIntermediate

/-- The PhaseResult recorded for a skipped phase. -/
def skippedPR (idx : Nat) (name : Str) : PhaseResult := ⟨idx + 1, name, 0, 0, [], true⟩

/-- The rebuild job status record (`_status` in rebuild_runner.py),
restricted to the fields the verified claims touch; wall-clock timestamp and
progress-display fields are not modelled. -/
structure Status where
  state : Str
  error : Option Str
  phase_results : List PhaseResult
  row_count : Nat
  col_count : Nat
deriving DecidableEq, Repr

/-- The phase-1 fatal-error test of `run_rebuild`:
`"INSERT" in e.get("sql_preview", "").upper()`. -/
def isFatalEntry (e : ErrEntry) : Bool := isSub "INSERT".data (pyUpper e.sql_preview)

/-- Phases 2 and 3 followed by the completion bookkeeping: each phase is
either skipped or run, results are appended in order, and the job completes
with the final row/column counts. -/
def finish23 (env : RebuildEnv) (skip : List Nat) (rs : List PhaseResult)
    (ops : List RebuildOp) : Status × List RebuildOp :=
  let p2 := if 2 ∈ skip then (skippedPR 1 phase2Name, ([] : List Nat))
            else run_phase 1 phase2Name env.phase2
  let p3 := if 3 ∈ skip then (skippedPR 2 phase3Name, ([] : List Nat))
            else run_phase 2 phase3Name env.phase3
  (⟨"completed".data, none, rs ++ [p2.1, p3.1], env.finalRows, env.finalCols⟩,
   ops ++ p2.2.map (RebuildOp.execPhaseStmt 2) ++ p3.2.map (RebuildOp.execPhaseStmt 3))

/-- Phase 1 and the escalation policy: if phase 1 ran and recorded an error
whose SQL preview contains `INSERT`, the whole job aborts with
`Fatal error in base insert: …` before phase 2; otherwise phases 2 and 3
follow.  (`raise RuntimeError(f"Fatal error in base insert: {…}")` uses the
first such error.) -/
def rebuildPhases (env : RebuildEnv) (skip : List Nat) : Status × List RebuildOp :=
  if 1 ∈ skip then
    finish23 env skip [skippedPR 0 phase1Name] []
  else
    let p1 := run_phase 0 phase1Name env.phase1
    let ops1 := p1.2.map (RebuildOp.execPhaseStmt 1)
    match p1.1.errors.find? isFatalEntry with
    | some fe =>
        (⟨"error".data, some ("Fatal error in base insert: ".data ++ fe.error),
          [p1.1], 0, 0⟩, ops1)
    | none => finish23 env skip [p1.1] ops1

/-- `run_rebuild` from rebuild_runner.py: check the required source tables,
drop and recreate the empty shadow table with production's columns plus the
missing intermediate columns, then run the phases with the phase-1
escalation policy.  Returns (final status, the shadow table as it stands
when the phase loop starts, the operation trace). -/
def run_rebuild (env : RebuildEnv) (skip : List Nat) :
    Status × Option ShadowTable × List RebuildOp :=
  if requiredTables.filter (fun t => !decide (t ∈ env.tables)) = [] then
    let rest := rebuildPhases env skip
    (rest.1, some ⟨setupShadowCols env.prodCols, 0⟩, setupOps env ++ rest.2)
  else
    (⟨"error".data, some "Missing required tables".data, [], 0, 0⟩, none, [])

/-- Counterexample environment for C2: phase 1 contains a single failing
statement whose SQL (an `UPDATE`) does not contain `INSERT`; phases 2 and 3
are present (here with no statements to execute). -/
def exEnvC2 : RebuildEnv :=
  ⟨requiredTables, ["race_id".data],
   [⟨"UPDATE race_training_dataset_new SET x = 1;".data, some "boom".data⟩],
   [], [], 0, 0⟩

/-- Counterexample for C2 as stated: a statement failure is recorded during
phase 1 (one error entry on the first phase result), yet the job does not
abort — phases 2 and 3 are still attempted (three phase results, none
skipped) and the final state is `completed`, not `error`. -/
theorem C2_counterexample :
    ((run_rebuild exEnvC2 []).1.phase_results.map
        (fun r => r.errors.length)) = [1, 0, 0] ∧
    ((run_rebuild exEnvC2 []).1.phase_results.map PhaseResult.skipped)
      = [false, false, false] ∧
    (run_rebuild exEnvC2 []).1.state = "completed".data ∧
    (run_rebuild exEnvC2 []).1.error = none := by
  refine ⟨?_, ?_, ?_, ?_⟩ <;> decide

/-- C2 (amended): a phase-1 statement failure aborts the whole job if and
only if its recorded SQL preview contains `INSERT` (after upper-casing).
When phase 1 runs and records such an error, the job state becomes `error`
with the message `Fatal error in base insert: ` plus the first such error's
message, and phases 2 and 3 are not attempted: the phase-result list
contains only phase 1's result. -/
theorem C2_phase1_insert_failure_aborts (env : RebuildEnv) (skip : List Nat)
    (fe : ErrEntry)
    (hreq : requiredTables.filter (fun t => !decide (t ∈ env.tables)) = [])
    (hskip : ¬ 1 ∈ skip)
    (hfatal : (run_phase 0 phase1Name env.phase1).1.errors.find? isFatalEntry
        = some fe) :
    (run_rebuild env skip).1.state = "error".data ∧
    (run_rebuild env skip).1.error
        = some ("Fatal error in base insert: ".data ++ fe.error) ∧
    (run_rebuild env skip).1.phase_results
        = [(run_phase 0 phase1Name env.phase1).1] := by
  unfold run_rebuild
  rw [if_pos hreq]
  unfold rebuildPhases
  rw [if_neg hskip]
  dsimp only
  rw [hfatal]
  exact ⟨rfl, rfl, rfl⟩

/-- Witness environment for the amended C2: phase 1's only statement is an
`INSERT` that fails. -/
def exEnvC2W : RebuildEnv :=
  ⟨requiredTables, ["race_id".data],
   [⟨"INSERT INTO race_training_dataset_new SELECT 1;".data,
     some "Binder Error: column x not found".data⟩],
   [], [], 0, 0⟩

/-- Witness for the amended C2: the failing `INSERT` in phase 1 aborts the
job with the fatal message and only phase 1 in the results. -/
theorem C2_witness :
    (run_rebuild exEnvC2W []).1.state = "error".data ∧
    (run_rebuild exEnvC2W []).1.error
        = some ("Fatal error in base insert: ".data
            ++ "Binder Error: column x not found".data) ∧
    (run_rebuild exEnvC2W []).1.phase_results.length = 1 := by
  have h := C2_phase1_insert_failure_aborts exEnvC2W []
      ⟨1, "Binder Error: column x not found".data,
       "INSERT INTO race_training_dataset_new SELECT 1;".data.take 200⟩
      (by decide) (by decide) (by decide)
  exact ⟨h.1, h.2.1, by rw [h.2.2]; rfl⟩

/-- C9: whenever the required source tables are present, the rebuild first
(re)creates the shadow table before any phase statement executes: the
operation trace starts with dropping any pre-existing
`race_training_dataset_new`, creating the fresh shadow from production, and
adding exactly the intermediate columns not already present — no phase
statement occurs among these setup operations — and the shadow standing at
the start of the phase loop has zero rows and a column set equal to
production's columns plus the intermediate columns (each added only when
missing, so membership is the union). -/
theorem C9_shadow_setup (env : RebuildEnv) (skip : List Nat)
    (hreq : requiredTables.filter (fun t => !decide (t ∈ env.tables)) = []) :
    ∃ shadow phaseOps,
      (run_rebuild env skip).2.1 = some shadow ∧
      shadow.rows = 0 ∧
      shadow.cols = env.prodCols
          ++ INTERMEDIATE_COLUMNS.filter (fun c => !decide (c ∈ env.prodCols)) ∧
      (∀ c, c ∈ shadow.cols ↔ c ∈ env.prodCols ∨ c ∈ INTERMEDIATE_COLUMNS) ∧
      (run_rebuild env skip).2.2
        = ((if newName ∈ env.tables then [RebuildOp.dropNewTable] else [])
            ++ [RebuildOp.createNewFromProd]
            ++ (INTERMEDIATE_COLUMNS.filter
                  (fun c => !decide (c ∈ env.prodCols))).map RebuildOp.addIntermediate)
          ++ phaseOps ∧
      (∀ p i, RebuildOp.execPhaseStmt p i ∉ setupOps env) := by
  refine ⟨⟨setupShadowCols env.prodCols, 0⟩, (rebuildPhases env skip).2, ?_, rfl, rfl, ?_, ?_, ?_⟩
  · unfold run_rebuild
    rw [if_pos hreq]
  · intro c
    unfold setupShadowCols
    rw [List.mem_append, List.mem_filter]
    constructor
    · rintro (h | ⟨h, _⟩)
      · exact Or.inl h
      · exact Or.inr h
    · rintro (h | h)
      · exact Or.inl h
      · by_cases hp : c ∈ env.prodCols
        · exact Or.inl hp
        · exact Or.inr ⟨h, by simp [hp]⟩
  · unfold run_rebuild
    rw [if_pos hreq]
    rfl
  · intro p i hmem
    unfold setupOps at hmem
    rw [List.mem_append, List.mem_append] at hmem
    rcases hmem with (h | h) | h
    · by_cases ht : newName ∈ env.tables
      · rw [if_pos ht] at h
        simp at h
      · rw [if_neg ht] at h
        simp at h
    · simp at h
    · rcases List.mem_map.mp h with ⟨c, _, hc⟩
      exact absurd hc (by simp)

/-- Witness environment for C9: a stale shadow table exists, and production
has one regular column plus one column that is already an intermediate
column. -/
def exEnvC9 : RebuildEnv :=
  ⟨requiredTables ++ [newName], ["race_id".data, "speed_rating".data],
   [], [], [], 0, 0⟩

/-- Witness for C9: the shadow at phase start is empty and its column set is
the union of production's columns and the intermediate columns. -/
theorem C9_witness :
    ∃ shadow, (run_rebuild exEnvC9 []).2.1 = some shadow ∧ shadow.rows = 0 ∧
      (∀ c, c ∈ shadow.cols ↔ c ∈ exEnvC9.prodCols ∨ c ∈ INTERMEDIATE_COLUMNS) := by
  obtain ⟨sh, _, h1, h2, _, h4, _, _⟩ := C9_shadow_setup exEnvC9 [] (by decide)
  exact ⟨sh, h1, h2, h4⟩

/-! ### The rebuild start endpoint (`start_rebuild` in web_ui.py) -/

/-- The response bodies of `POST /api/rebuild/start`. -/
inductive StartResp where
  | started
  | alreadyRunning
deriving DecidableEq, Repr

/-- `start_rebuild` from web_ui.py: poll the current status; if its state is
`"running"`, answer `already_running` without touching the status record and
without spawning a rebuild thread; otherwise spawn the background rebuild
thread and answer `started`.  Returns (response, status record as left by the
endpoint itself, whether a new rebuild job was started). -/
def start_rebuild (st : Status) : StartResp × Status × Bool :=
  if st.state = "running".data then (StartResp.alreadyRunning, st, false)
  else (StartResp.started, st, true)

/-- C7: a start-rebuild request issued while the rebuild status is
`running` returns the `already_running` response, leaves the in-flight
job's status record untouched, and starts no second rebuild job. -/
theorem C7_no_concurrent_rebuild (st : Status)
    (h : st.state = "running".data) :
    start_rebuild st = (StartResp.alreadyRunning, st, false) := by
  unfold start_rebuild
  rw [if_pos h]

/-- Witness for C7: with a running status, the endpoint rejects the request
and changes nothing. -/
theorem C7_witness :
    start_rebuild ⟨"running".data, none, [], 0, 0⟩
      = (StartResp.alreadyRunning, ⟨"running".data, none, [], 0, 0⟩, false) :=
  C7_no_concurrent_rebuild ⟨"running".data, none, [], 0, 0⟩ rfl

/-! ### Splitter idempotence (C6): stripping lemmas -/

theorem lstrip_cons (c : Char) (l : Str) :
    lstrip (c :: l) = if pyWs c then lstrip l else c :: l := by
  unfold lstrip
  rw [List.dropWhile_cons]

theorem lstrip_idem (l : Str) : lstrip (lstrip l) = lstrip l := by
  induction l with
  | nil => rfl
  | cons c t ih =>
    rw [lstrip_cons]
    by_cases hw : pyWs c
    · rw [if_pos hw]
      exact ih
    · rw [if_neg hw, lstrip_cons, if_neg hw]

theorem lstrip_eq_nil_iff (l : Str) : lstrip l = [] ↔ ∀ c ∈ l, pyWs c := by
  unfold lstrip
  exact List.dropWhile_eq_nil_iff

theorem rstrip_reverse_eq (l : Str) (h : l.reverse.dropWhile pyWs = []) :
    rstrip l = [] := by
  unfold rstrip
  rw [h]
  rfl

theorem rstrip_eq_nil_iff (l : Str) : rstrip l = [] ↔ ∀ c ∈ l, pyWs c := by
  unfold rstrip
  rw [List.reverse_eq_nil_iff, List.dropWhile_eq_nil_iff]
  constructor
  · intro h c hc
    exact h c (List.mem_reverse.mpr hc)
  · intro h c hc
    exact h c (List.mem_reverse.mp hc)

theorem dropWhile_concat_pyWs (x : Str) (c : Char) :
    (x ++ [c]).dropWhile pyWs
      = if x.dropWhile pyWs = [] then (if pyWs c then [] else [c])
        else x.dropWhile pyWs ++ [c] := by
  induction x with
  | nil => simp [List.dropWhile_cons]
  | cons d t ih =>
    rw [List.cons_append]
    simp only [List.dropWhile_cons]
    by_cases hw : pyWs d
    · rw [if_pos hw, if_pos hw, ih]
    · rw [if_neg hw, if_neg hw, if_neg (List.cons_ne_nil d t)]
      rfl

theorem rstrip_cons (c : Char) (l : Str) :
    rstrip (c :: l)
      = if rstrip l = [] then (if pyWs c then [] else [c]) else c :: rstrip l := by
  show (((c :: l).reverse).dropWhile pyWs).reverse
      = if rstrip l = [] then (if pyWs c then [] else [c]) else c :: rstrip l
  rw [List.reverse_cons, dropWhile_concat_pyWs]
  by_cases hr : l.reverse.dropWhile pyWs = []
  · rw [if_pos hr, if_pos (rstrip_reverse_eq l hr)]
    by_cases hw : pyWs c
    · rw [if_pos hw]
      rfl
    · rw [if_neg hw]
      rfl
  · have hrs : rstrip l ≠ [] := by
      intro he
      apply hr
      have h2 := congrArg List.reverse he
      unfold rstrip at h2
      rwa [List.reverse_reverse] at h2
    rw [if_neg hr, if_neg hrs, List.reverse_append, List.reverse_singleton]
    rfl

theorem rstrip_idem (l : Str) : rstrip (rstrip l) = rstrip l := by
  induction l with
  | nil => rfl
  | cons c t ih =>
    rw [rstrip_cons]
    by_cases hr : rstrip t = []
    · rw [if_pos hr]
      by_cases hw : pyWs c
      · rw [if_pos hw]
        rfl
      · rw [if_neg hw, rstrip_cons]
        rw [show rstrip ([] : Str) = [] from rfl]
        rw [if_pos rfl, if_neg hw]
    · rw [if_neg hr, rstrip_cons, ih, if_neg hr]

theorem lstrip_rstrip_comm (l : Str) : lstrip (rstrip l) = rstrip (lstrip l) := by
  induction l with
  | nil => rfl
  | cons c t ih =>
    by_cases hw : pyWs c
    · rw [lstrip_cons, if_pos hw, rstrip_cons]
      by_cases hr : rstrip t = []
      · rw [if_pos hr, if_pos hw]
        have hlt : lstrip t = [] := (lstrip_eq_nil_iff t).mpr ((rstrip_eq_nil_iff t).mp hr)
        rw [hlt]
        rfl
      · rw [if_neg hr, lstrip_cons, if_pos hw]
        exact ih
    · rw [lstrip_cons, if_neg hw, rstrip_cons]
      by_cases hr : rstrip t = []
      · rw [if_pos hr, if_neg hw, lstrip_cons, if_neg hw]
      · rw [if_neg hr, lstrip_cons, if_neg hw]

theorem pystrip_lstrip (l : Str) : pystrip (lstrip l) = pystrip l := by
  unfold pystrip
  rw [lstrip_idem]

theorem pystrip_rstrip (l : Str) : pystrip (rstrip l) = pystrip l := by
  unfold pystrip
  rw [lstrip_rstrip_comm, rstrip_idem]

theorem pystrip_idem (l : Str) : pystrip (pystrip l) = pystrip l := by
  show pystrip (rstrip (lstrip l)) = pystrip l
  rw [pystrip_rstrip, pystrip_lstrip]

theorem lstrip_ne_nil_of_pystrip (l : Str) (h : pystrip l ≠ []) : lstrip l ≠ [] := by
  intro he
  apply h
  unfold pystrip
  rw [he]
  rfl

theorem rstrip_ne_nil_of_pystrip (l : Str) (h : pystrip l ≠ []) : rstrip l ≠ [] := by
  intro he
  apply h
  have hlt : lstrip l = [] := (lstrip_eq_nil_iff l).mpr ((rstrip_eq_nil_iff l).mp he)
  unfold pystrip
  rw [hlt]
  rfl

theorem lstrip_append (x y : Str) (h : lstrip x ≠ []) : lstrip (x ++ y) = lstrip x ++ y := by
  induction x with
  | nil => exact absurd rfl h
  | cons c t ih =>
    rw [List.cons_append, lstrip_cons, lstrip_cons]
    rw [lstrip_cons] at h
    by_cases hw : pyWs c
    · rw [if_pos hw] at h ⊢
      rw [if_pos hw]
      exact ih h
    · rw [if_neg hw, if_neg hw]
      rfl

theorem rstrip_append (x y : Str) (h : rstrip y ≠ []) : rstrip (x ++ y) = x ++ rstrip y := by
  induction x with
  | nil => rfl
  | cons c t ih =>
    rw [List.cons_append, rstrip_cons, ih]
    have hne : t ++ rstrip y ≠ [] := by
      intro he
      rcases List.append_eq_nil.mp he with ⟨_, h2⟩
      exact h h2
    rw [if_neg hne]
    rfl

/-! ### Splitter idempotence (C6): line structure lemmas -/

/-- A line contains no newline character. -/
def noNl (l : Str) : Prop := '\n' ∉ l

theorem joinNl_cons (l : Str) (ls : List Str) (h : ls ≠ []) :
    joinNl (l :: ls) = l ++ '\n' :: joinNl ls := by
  cases ls with
  | nil => exact absurd rfl h
  | cons a as => rfl

theorem splitOnNl_ne_nil (s : Str) : splitOnNl s ≠ [] := by
  cases s with
  | nil => exact List.cons_ne_nil _ _
  | cons c rest =>
    simp only [splitOnNl]
    by_cases h : c = '\n'
    · rw [if_pos h]
      exact List.cons_ne_nil _ _
    · rw [if_neg h]
      cases hrec : splitOnNl rest with
      | nil => exact List.cons_ne_nil _ _
      | cons a as => exact List.cons_ne_nil _ _

theorem splitOnNl_append (x y : Str) :
    splitOnNl (x ++ '\n' :: y) = splitOnNl x ++ splitOnNl y := by
  induction x with
  | nil =>
    show splitOnNl ('\n' :: y) = splitOnNl [] ++ splitOnNl y
    simp only [splitOnNl, if_true]
    rfl
  | cons c t ih =>
    by_cases h : c = '\n'
    · subst h
      show splitOnNl ('\n' :: (t ++ '\n' :: y)) = splitOnNl ('\n' :: t) ++ splitOnNl y
      simp only [splitOnNl, if_true]
      rw [ih]
      rfl
    · show splitOnNl (c :: (t ++ '\n' :: y)) = splitOnNl (c :: t) ++ splitOnNl y
      simp only [splitOnNl]
      rw [if_neg h, if_neg h, ih]
      cases ht : splitOnNl t with
      | nil => exact absurd ht (splitOnNl_ne_nil t)
      | cons a as => rfl

theorem splitOnNl_noNl (l : Str) (h : noNl l) : splitOnNl l = [l] := by
  induction l with
  | nil => rfl
  | cons c t ih =>
    have hc : ¬ c = '\n' := by
      intro he
      subst he
      exact h (List.mem_cons_self _ _)
    have ht : noNl t := fun hm => h (List.mem_cons_of_mem c hm)
    simp only [splitOnNl]
    rw [if_neg hc, ih ht]

theorem noNl_splitOnNl (s : Str) : ∀ l ∈ splitOnNl s, noNl l := by
  induction s with
  | nil =>
    intro l hl
    have : l = [] := by
      cases hl with
      | head => rfl
      | tail _ h2 => cases h2
    subst this
    intro hx
    cases hx
  | cons c rest ih =>
    intro l hl
    simp only [splitOnNl] at hl
    by_cases h : c = '\n'
    · rw [if_pos h] at hl
      cases hl with
      | head =>
        intro hx
        cases hx
      | tail _ hmem => exact ih l hmem
    · rw [if_neg h] at hl
      cases ht : splitOnNl rest with
      | nil => exact absurd ht (splitOnNl_ne_nil rest)
      | cons a as =>
        rw [ht] at hl
        cases hl with
        | head =>
          intro hx
          cases hx with
          | head => exact h rfl
          | tail _ hx2 => exact ih a (ht ▸ List.mem_cons_self a as) hx2
        | tail _ hmem => exact ih l (ht ▸ List.mem_cons_of_mem a hmem)

theorem splitOnNl_joinNl (ls : List Str) (h : ls ≠ []) (hn : ∀ l ∈ ls, noNl l) :
    splitOnNl (joinNl ls) = ls := by
  induction ls with
  | nil => exact absurd rfl h
  | cons l rest ih =>
    cases rest with
    | nil => exact splitOnNl_noNl l (hn l (List.mem_cons_self _ _))
    | cons l2 rest2 =>
      rw [joinNl_cons l (l2 :: rest2) (List.cons_ne_nil _ _)]
      rw [splitOnNl_append]
      rw [splitOnNl_noNl l (hn l (List.mem_cons_self _ _))]
      rw [ih (List.cons_ne_nil _ _) (fun x hx => hn x (List.mem_cons_of_mem l hx))]
      rfl

theorem splitOnNl_joinNl_map (ls : List Str) (h : ls ≠ []) :
    splitOnNl (joinNl ls) = (ls.map splitOnNl).flatten := by
  induction ls with
  | nil => exact absurd rfl h
  | cons l rest ih =>
    cases rest with
    | nil =>
      show splitOnNl (joinNl [l]) = ([l].map splitOnNl).flatten
      simp [joinNl]
    | cons l2 r2 =>
      rw [joinNl_cons _ _ (List.cons_ne_nil _ _), splitOnNl_append,
        ih (List.cons_ne_nil _ _)]
      simp [List.map_cons, List.flatten]

/-- Strip the last line of a statement's line list (the effect of the outer
`strip()` on all lines but the first). -/
def edgeStripR : List Str → List Str
  | [] => []
  | [l] => [rstrip l]
  | l :: l2 :: ls => l :: edgeStripR (l2 :: ls)

/-- Strip the first line on the left and the last line on the right: the
line list of `'\n'.join(cur).strip()` for a list of non-blank lines. -/
def edgeStrip : List Str → List Str
  | [] => []
  | [l] => [pystrip l]
  | l :: l2 :: ls => lstrip l :: edgeStripR (l2 :: ls)

theorem edgeStripR_ne_nil (ls : List Str) (h : ls ≠ []) : edgeStripR ls ≠ [] := by
  cases ls with
  | nil => exact absurd rfl h
  | cons l rest =>
    cases rest with
    | nil => exact List.cons_ne_nil _ _
    | cons l2 r2 => exact List.cons_ne_nil _ _

theorem map_pystrip_edgeStripR (ls : List Str) :
    (edgeStripR ls).map pystrip = ls.map pystrip := by
  induction ls with
  | nil => rfl
  | cons l rest ih =>
    cases rest with
    | nil =>
      show [pystrip (rstrip l)] = [pystrip l]
      rw [pystrip_rstrip]
    | cons l2 r2 =>
      show pystrip l :: (edgeStripR (l2 :: r2)).map pystrip = pystrip l :: _
      rw [ih]

theorem map_pystrip_edgeStrip (ls : List Str) :
    (edgeStrip ls).map pystrip = ls.map pystrip := by
  cases ls with
  | nil => rfl
  | cons l rest =>
    cases rest with
    | nil =>
      show [pystrip (pystrip l)] = [pystrip l]
      rw [pystrip_idem]
    | cons l2 r2 =>
      show pystrip (lstrip l) :: (edgeStripR (l2 :: r2)).map pystrip = pystrip l :: _
      rw [pystrip_lstrip, map_pystrip_edgeStripR]

theorem mem_lstrip_sub (l : Str) (c : Char) (h : c ∈ lstrip l) : c ∈ l :=
  List.dropWhile_subset _ h

theorem mem_rstrip_sub (l : Str) (c : Char) (h : c ∈ rstrip l) : c ∈ l := by
  unfold rstrip at h
  rw [List.mem_reverse] at h
  exact List.mem_reverse.mp (List.dropWhile_subset _ h)

theorem noNl_lstrip (l : Str) (h : noNl l) : noNl (lstrip l) :=
  fun hx => h (mem_lstrip_sub l _ hx)

theorem noNl_rstrip (l : Str) (h : noNl l) : noNl (rstrip l) :=
  fun hx => h (mem_rstrip_sub l _ hx)

theorem noNl_pystrip (l : Str) (h : noNl l) : noNl (pystrip l) :=
  noNl_rstrip _ (noNl_lstrip _ h)

theorem rstrip_joinNl (ls : List Str) (h : ls ≠ [])
    (hcl : ∀ l ∈ ls, pystrip l ≠ []) :
    rstrip (joinNl ls) = joinNl (edgeStripR ls) ∧ rstrip (joinNl ls) ≠ [] := by
  induction ls with
  | nil => exact absurd rfl h
  | cons l rest ih =>
    cases rest with
    | nil =>
      refine ⟨rfl, ?_⟩
      exact rstrip_ne_nil_of_pystrip l (hcl l (List.mem_cons_self _ _))
    | cons l2 r2 =>
      obtain ⟨ih1, ih2⟩ := ih (List.cons_ne_nil _ _)
        (fun x hx => hcl x (List.mem_cons_of_mem l hx))
      have hmain : rstrip (joinNl (l :: l2 :: r2))
          = (l ++ ['\n']) ++ joinNl (edgeStripR (l2 :: r2)) := by
        rw [joinNl_cons l (l2 :: r2) (List.cons_ne_nil _ _)]
        rw [show l ++ '\n' :: joinNl (l2 :: r2)
            = (l ++ ['\n']) ++ joinNl (l2 :: r2) by simp]
        rw [rstrip_append _ _ ih2, ih1]
      constructor
      · rw [hmain]
        rw [show edgeStripR (l :: l2 :: r2) = l :: edgeStripR (l2 :: r2) from rfl]
        rw [joinNl_cons l _ (edgeStripR_ne_nil _ (List.cons_ne_nil _ _))]
        simp
      · rw [hmain]
        intro he
        rcases List.append_eq_nil.mp he with ⟨h1, _⟩
        rcases List.append_eq_nil.mp h1 with ⟨_, h2⟩
        cases h2

theorem pystrip_joinNl (ls : List Str) (h : ls ≠ [])
    (hcl : ∀ l ∈ ls, pystrip l ≠ []) :
    pystrip (joinNl ls) = joinNl (edgeStrip ls) := by
  cases ls with
  | nil => exact absurd rfl h
  | cons l rest =>
    cases rest with
    | nil => rfl
    | cons l2 r2 =>
      have hl : lstrip l ≠ [] :=
        lstrip_ne_nil_of_pystrip l (hcl l (List.mem_cons_self _ _))
      obtain ⟨hr1, hr2⟩ := rstrip_joinNl (l2 :: r2) (List.cons_ne_nil _ _)
        (fun x hx => hcl x (List.mem_cons_of_mem l hx))
      rw [joinNl_cons l (l2 :: r2) (List.cons_ne_nil _ _)]
      unfold pystrip
      rw [lstrip_append l _ hl]
      rw [show lstrip l ++ '\n' :: joinNl (l2 :: r2)
          = (lstrip l ++ ['\n']) ++ joinNl (l2 :: r2) by simp]
      rw [rstrip_append _ _ hr2, hr1]
      rw [show edgeStrip (l :: l2 :: r2) = lstrip l :: edgeStripR (l2 :: r2) from rfl]
      rw [joinNl_cons _ _ (edgeStripR_ne_nil _ (List.cons_ne_nil _ _))]
      simp

/-! ### Splitter idempotence (C6): the flush structure of the line fold -/

/-- A line the splitter does not skip. -/
def cleanLine (l : Str) : Prop := isBlankOrComment l = false

theorem clean_pystrip_ne (l : Str) (h : cleanLine l) : pystrip l ≠ [] := by
  intro he
  unfold cleanLine isBlankOrComment at h
  rw [he] at h
  simp at h

theorem isBlankOrComment_congr (a b : Str) (h : pystrip a = pystrip b) :
    isBlankOrComment a = isBlankOrComment b := by
  unfold isBlankOrComment
  rw [h]

theorem endsSemi_congr (a b : Str) (h : pystrip a = pystrip b) :
    endsSemi a = endsSemi b := by
  unfold endsSemi
  rw [h]

theorem scanLine_congr (q : QState) (a b : Str) (h : pystrip a = pystrip b) :
    scanLine q a = scanLine q b := by
  unfold scanLine
  rw [h]

/-- The per-line flush decision: the stripped line ends with `;` and the
quote tracker is outside any string literal after scanning the line. -/
def flushes (q : QState) (l : Str) : Bool := endsSemi l && !(scanLine q l).inString

theorem flushes_congr (q : QState) (a b : Str) (h : pystrip a = pystrip b) :
    flushes q a = flushes q b := by
  unfold flushes
  rw [endsSemi_congr a b h, scanLine_congr q a b h]

/-- The statement list contributed by a flushed buffer. -/
def emitStmt (cur : List Str) : List Str :=
  if keepStmt (mkStmt cur) then [mkStmt cur] else []

theorem stepLine_skip (st : SState) (l : Str) (h : isBlankOrComment l = true) :
    stepLine st l = st := by
  unfold stepLine
  rw [if_pos h]

theorem stepLine_clean (st : SState) (l : Str) (h : cleanLine l) :
    stepLine st l
      = if flushes st.q l
        then ⟨st.stmts ++ emitStmt (st.current ++ [l]), [], scanLine st.q l⟩
        else ⟨st.stmts, st.current ++ [l], scanLine st.q l⟩ := by
  unfold cleanLine at h
  unfold stepLine
  rw [if_neg (by simp [h])]
  rfl

/-- Partition a list of clean lines into the flushed chunks and the trailing
residue, threading the quote state across lines (chunk boundaries depend
only on the lines and the quote state, not on the pending buffer). -/
def chunksOf (q : QState) : List Str → List (List Str) × List Str
  | [] => ([], [])
  | l :: ls =>
    if flushes q l then
      ([l] :: (chunksOf (scanLine q l) ls).1, (chunksOf (scanLine q l) ls).2)
    else
      match chunksOf (scanLine q l) ls with
      | ([], r) => ([], l :: r)
      | (c :: cs, r) => ((l :: c) :: cs, r)

theorem chunksOf_flatten (q : QState) (ls : List Str) :
    (chunksOf q ls).1.flatten ++ (chunksOf q ls).2 = ls := by
  induction ls generalizing q with
  | nil => rfl
  | cons l ls ih =>
    have ihq := ih (scanLine q l)
    simp only [chunksOf]
    by_cases hf : flushes q l = true
    · rw [if_pos hf]
      dsimp only
      simp only [List.flatten_cons, List.cons_append, List.nil_append]
      rw [ihq]
    · rw [if_neg hf]
      cases hc : chunksOf (scanLine q l) ls with
      | mk cs r =>
        rw [hc] at ihq
        cases cs with
        | nil =>
          simp only [List.flatten_nil, List.nil_append] at ihq
          dsimp only
          simp only [List.flatten_nil, List.nil_append]
          rw [ihq]
        | cons c cs2 =>
          simp only [List.flatten_cons, List.cons_append, List.append_assoc] at ihq
          dsimp only
          simp only [List.flatten_cons, List.cons_append, List.append_assoc]
          rw [ihq]

/-- The quote state after scanning a list of lines. -/
def qList (q : QState) (ls : List Str) : QState := ls.foldl scanLine q

theorem qList_cons (q : QState) (l : Str) (ls : List Str) :
    qList q (l :: ls) = qList (scanLine q l) ls := rfl

/-- The statements the fold emits while consuming `ls` from pending buffer
`cur` in quote state `q`. -/
def outStmts (q : QState) (cur : List Str) (ls : List Str) : List Str :=
  match chunksOf q ls with
  | ([], _) => []
  | (c :: cs, _) => emitStmt (cur ++ c) ++ (cs.map emitStmt).flatten

/-- The pending buffer left after the fold consumes `ls`. -/
def outCur (cur : List Str) (q : QState) (ls : List Str) : List Str :=
  match chunksOf q ls with
  | ([], r) => cur ++ r
  | (_ :: _, r) => r

theorem outStmts_flush (q : QState) (cur : List Str) (l : Str) (ls : List Str)
    (hf : flushes q l = true) :
    outStmts q cur (l :: ls)
      = emitStmt (cur ++ [l]) ++ outStmts (scanLine q l) [] ls := by
  unfold outStmts
  simp only [chunksOf, if_pos hf]
  cases hc : chunksOf (scanLine q l) ls with
  | mk cs r =>
    cases cs with
    | nil => simp
    | cons c cs2 =>
      dsimp only
      simp only [List.map_cons, List.flatten_cons, List.nil_append, List.append_assoc]

theorem outStmts_noflush (q : QState) (cur : List Str) (l : Str) (ls : List Str)
    (hf : flushes q l = false) :
    outStmts q cur (l :: ls) = outStmts (scanLine q l) (cur ++ [l]) ls := by
  unfold outStmts
  simp only [chunksOf, hf, Bool.false_eq_true, if_false]
  cases hc : chunksOf (scanLine q l) ls with
  | mk cs r =>
    cases cs with
    | nil => rfl
    | cons c cs2 =>
      dsimp only
      rw [show cur ++ l :: c = (cur ++ [l]) ++ c from by simp]

theorem outCur_flush (q : QState) (cur : List Str) (l : Str) (ls : List Str)
    (hf : flushes q l = true) :
    outCur cur q (l :: ls) = outCur [] (scanLine q l) ls := by
  unfold outCur
  simp only [chunksOf, if_pos hf]
  cases hc : chunksOf (scanLine q l) ls with
  | mk cs r =>
    cases cs with
    | nil => simp
    | cons c cs2 => rfl

theorem outCur_noflush (q : QState) (cur : List Str) (l : Str) (ls : List Str)
    (hf : flushes q l = false) :
    outCur cur q (l :: ls) = outCur (cur ++ [l]) (scanLine q l) ls := by
  unfold outCur
  simp only [chunksOf, hf, Bool.false_eq_true, if_false]
  cases hc : chunksOf (scanLine q l) ls with
  | mk cs r =>
    cases cs with
    | nil =>
      dsimp only
      simp
    | cons c cs2 => rfl

/-- Characterization of the fold of `stepLine` over clean lines in terms of
the chunk decomposition. -/
theorem foldl_stepLine_clean (ls : List Str) :
    ∀ (S cur : List Str) (q : QState), (∀ l ∈ ls, cleanLine l) →
    ls.foldl stepLine ⟨S, cur, q⟩
      = ⟨S ++ outStmts q cur ls, outCur cur q ls, qList q ls⟩ := by
  induction ls with
  | nil =>
    intro S cur q _
    show (⟨S, cur, q⟩ : SState) = _
    unfold outStmts outCur qList
    simp [chunksOf]
  | cons l ls ih =>
    intro S cur q h
    have hl : cleanLine l := h l (List.mem_cons_self _ _)
    have hrest : ∀ x ∈ ls, cleanLine x := fun x hx => h x (List.mem_cons_of_mem _ hx)
    rw [List.foldl_cons, stepLine_clean ⟨S, cur, q⟩ l hl]
    by_cases hf : flushes q l = true
    · have hfq : flushes (⟨S, cur, q⟩ : SState).q l = true := hf
      rw [if_pos hfq]
      rw [ih _ _ _ hrest]
      rw [outStmts_flush q cur l ls hf, outCur_flush q cur l ls hf, qList_cons]
      simp [List.append_assoc]
    · have hf2 : flushes q l = false := by
        cases hx : flushes q l
        · rfl
        · exact absurd hx hf
      have hfq : ¬ flushes (⟨S, cur, q⟩ : SState).q l = true := hf
      rw [if_neg hfq]
      rw [ih _ _ _ hrest]
      rw [outStmts_noflush q cur l ls hf2, outCur_noflush q cur l ls hf2, qList_cons]

theorem foldl_stepLine_filter (ls : List Str) (st : SState) :
    ls.foldl stepLine st
      = (ls.filter (fun l => !isBlankOrComment l)).foldl stepLine st := by
  induction ls generalizing st with
  | nil => rfl
  | cons l ls ih =>
    rw [List.foldl_cons, List.filter_cons]
    by_cases h : isBlankOrComment l = true
    · rw [stepLine_skip st l h]
      have hb : (!isBlankOrComment l) = false := by rw [h]; rfl
      rw [hb, if_neg Bool.false_ne_true]
      exact ih st
    · have h2 : isBlankOrComment l = false := by
        cases hb : isBlankOrComment l
        · rfl
        · exact absurd hb h
      have hb : (!isBlankOrComment l) = true := by rw [h2]; rfl
      rw [hb, if_pos rfl, List.foldl_cons]
      exact ih (stepLine st l)

/-- The clean (non-skipped) lines of a script. -/
def cleanLines (s : Str) : List Str :=
  (splitOnNl s).filter (fun l => !isBlankOrComment l)

theorem cleanLines_clean (s : Str) : ∀ l ∈ cleanLines s, cleanLine l := by
  intro l hl
  rcases List.mem_filter.mp hl with ⟨_, hp⟩
  unfold cleanLine
  cases hb : isBlankOrComment l
  · rfl
  · rw [hb] at hp
    simp at hp

theorem cleanLines_noNl (s : Str) : ∀ l ∈ cleanLines s, noNl l := by
  intro l hl
  rcases List.mem_filter.mp hl with ⟨hm, _⟩
  exact noNl_splitOnNl s l hm

/-- `split_sql_statements` in terms of the chunk decomposition of the clean
lines: the flushed chunks are emitted in order and a non-empty residue is
emitted by the trailing block. -/
theorem split_spec (s : Str) :
    split_sql_statements s
      = ((chunksOf initQ (cleanLines s)).1.map emitStmt).flatten
        ++ (if (chunksOf initQ (cleanLines s)).2 = [] then []
            else emitStmt ((chunksOf initQ (cleanLines s)).2)) := by
  unfold split_sql_statements
  rw [show initS = ⟨[], [], initQ⟩ from rfl]
  rw [foldl_stepLine_filter]
  rw [show (splitOnNl s).filter (fun l => !isBlankOrComment l) = cleanLines s from rfl]
  rw [foldl_stepLine_clean _ _ _ _ (cleanLines_clean s)]
  unfold finishSplit outStmts outCur
  cases hc : chunksOf initQ (cleanLines s) with
  | mk cs r =>
    cases cs with
    | nil =>
      cases hr : r with
      | nil => simp
      | cons a as => simp [emitStmt]
    | cons c cs2 =>
      cases hr : r with
      | nil => simp
      | cons a as => simp [emitStmt, List.append_assoc]

/-! ### Splitter idempotence (C6): the chunk structure and its congruence -/

/-- No line of `ls` flushes when scanned from `q`. -/
def noFlushRun (q : QState) : List Str → Prop
  | [] => True
  | l :: ls => flushes q l = false ∧ noFlushRun (scanLine q l) ls

/-- `c` is exactly one chunk from `q`: no flush before its last line, which
flushes. -/
def chunkRun (q : QState) : List Str → Prop
  | [] => False
  | [l] => flushes q l = true
  | l :: l2 :: ls => flushes q l = false ∧ chunkRun (scanLine q l) (l2 :: ls)

/-- The chunks `cs` followed by the residue `r` form a complete run from
`q`. -/
def chunkChain (q : QState) : List (List Str) → List Str → Prop
  | [], r => noFlushRun q r
  | c :: cs, r => chunkRun q c ∧ chunkChain (qList q c) cs r

theorem chunkRun_ne_nil (q : QState) (c : List Str) (h : chunkRun q c) : c ≠ [] := by
  cases c with
  | nil => cases h
  | cons a as => exact List.cons_ne_nil _ _

theorem chunkChain_ne_nil (q : QState) (cs : List (List Str)) (r : List Str)
    (h : chunkChain q cs r) : ∀ c ∈ cs, c ≠ [] := by
  induction cs generalizing q with
  | nil => intro c hc; cases hc
  | cons c0 cs ih =>
    intro c hc
    obtain ⟨h1, h2⟩ := h
    cases hc with
    | head => exact chunkRun_ne_nil q c0 h1
    | tail _ hmem => exact ih (qList q c0) h2 c hmem

/-- Soundness: the decomposition computed by `chunksOf` satisfies the chunk
conditions. -/
theorem chunksOf_chain (ls : List Str) : ∀ q : QState,
    chunkChain q (chunksOf q ls).1 (chunksOf q ls).2 := by
  induction ls with
  | nil => intro q; exact trivial
  | cons l ls ih =>
    intro q
    have ihq := ih (scanLine q l)
    simp only [chunksOf]
    by_cases hf : flushes q l = true
    · rw [if_pos hf]
      dsimp only
      refine ⟨hf, ?_⟩
      exact ihq
    · have hf2 : flushes q l = false := by
        cases hx : flushes q l
        · rfl
        · exact absurd hx hf
      rw [if_neg hf]
      cases hc : chunksOf (scanLine q l) ls with
      | mk cs r =>
        rw [hc] at ihq
        cases cs with
        | nil => exact ⟨hf2, ihq⟩
        | cons c cs2 =>
          obtain ⟨h1, h2⟩ := ihq
          cases c with
          | nil => exact absurd rfl (chunkRun_ne_nil _ _ h1)
          | cons c1 c2 =>
            refine ⟨⟨hf2, h1⟩, ?_⟩
            rw [show qList q (l :: c1 :: c2) = qList (scanLine q l) (c1 :: c2) from rfl]
            exact h2

theorem chunksOf_of_noFlush (q : QState) (r : List Str) (h : noFlushRun q r) :
    chunksOf q r = ([], r) := by
  induction r generalizing q with
  | nil => rfl
  | cons l ls ih =>
    obtain ⟨h1, h2⟩ := h
    simp only [chunksOf]
    rw [if_neg (by rw [h1]; exact Bool.false_ne_true)]
    rw [ih (scanLine q l) h2]

theorem chunksOf_cons (q : QState) (l : Str) (ls : List Str) :
    chunksOf q (l :: ls)
      = if flushes q l then
          ([l] :: (chunksOf (scanLine q l) ls).1, (chunksOf (scanLine q l) ls).2)
        else
          match chunksOf (scanLine q l) ls with
          | ([], r) => ([], l :: r)
          | (c :: cs, r) => ((l :: c) :: cs, r) := rfl

theorem chunksOf_of_chunkRun (c : List Str) : ∀ (q : QState), chunkRun q c →
    ∀ ls : List Str,
    chunksOf q (c ++ ls)
      = (c :: (chunksOf (qList q c) ls).1, (chunksOf (qList q c) ls).2) := by
  induction c with
  | nil => intro q h; cases h
  | cons l c2 ih =>
    intro q h ls
    cases c2 with
    | nil =>
      have h' : flushes q l = true := h
      show chunksOf q (l :: ls)
        = ([l] :: (chunksOf (qList q [l]) ls).1, (chunksOf (qList q [l]) ls).2)
      rw [chunksOf_cons, if_pos h']
      rfl
    | cons l2 c3 =>
      obtain ⟨h1, h2⟩ := h
      show chunksOf q (l :: ((l2 :: c3) ++ ls)) = _
      rw [chunksOf_cons]
      rw [if_neg (by rw [h1]; exact Bool.false_ne_true)]
      rw [ih (scanLine q l) h2 ls]
      rfl

/-- Completeness: a list satisfying the chunk conditions decomposes exactly
as described. -/
theorem chunksOf_of_chain (q : QState) (cs : List (List Str)) (r : List Str)
    (h : chunkChain q cs r) : chunksOf q (cs.flatten ++ r) = (cs, r) := by
  induction cs generalizing q with
  | nil =>
    rw [List.flatten_nil, List.nil_append]
    exact chunksOf_of_noFlush q r h
  | cons c cs ih =>
    obtain ⟨h1, h2⟩ := h
    rw [List.flatten_cons, List.append_assoc]
    rw [chunksOf_of_chunkRun c q h1 (cs.flatten ++ r)]
    rw [ih (qList q c) h2]

theorem qList_congr (a : List Str) : ∀ (b : List Str) (q : QState),
    a.map pystrip = b.map pystrip → qList q a = qList q b := by
  induction a with
  | nil =>
    intro b q h
    cases b with
    | nil => rfl
    | cons b1 bs => simp at h
  | cons a1 as ih =>
    intro b q h
    cases b with
    | nil => simp at h
    | cons b1 bs =>
      simp only [List.map_cons, List.cons.injEq] at h
      obtain ⟨h1, h2⟩ := h
      rw [qList_cons, qList_cons, scanLine_congr q a1 b1 h1]
      exact ih bs (scanLine q b1) h2

theorem noFlushRun_congr (a : List Str) : ∀ (b : List Str) (q : QState),
    a.map pystrip = b.map pystrip → noFlushRun q a → noFlushRun q b := by
  induction a with
  | nil =>
    intro b q h _
    cases b with
    | nil => exact trivial
    | cons b1 bs => simp at h
  | cons a1 as ih =>
    intro b q h hr
    cases b with
    | nil => simp at h
    | cons b1 bs =>
      simp only [List.map_cons, List.cons.injEq] at h
      obtain ⟨h1, h2⟩ := h
      obtain ⟨hr1, hr2⟩ := hr
      refine ⟨by rw [← flushes_congr q a1 b1 h1]; exact hr1, ?_⟩
      rw [← scanLine_congr q a1 b1 h1]
      exact ih bs (scanLine q a1) h2 hr2

theorem chunkRun_congr (a : List Str) : ∀ (b : List Str) (q : QState),
    a.map pystrip = b.map pystrip → chunkRun q a → chunkRun q b := by
  induction a with
  | nil => intro b q _ hr; cases hr
  | cons a1 as ih =>
    intro b q h hr
    cases b with
    | nil => simp at h
    | cons b1 bs =>
      simp only [List.map_cons, List.cons.injEq] at h
      obtain ⟨h1, h2⟩ := h
      cases as with
      | nil =>
        cases bs with
        | nil =>
          show flushes q b1 = true
          rw [← flushes_congr q a1 b1 h1]
          exact hr
        | cons c cs => simp at h2
      | cons a2 as2 =>
        cases bs with
        | nil => simp at h2
        | cons b2 bs2 =>
          obtain ⟨hr1, hr2⟩ := hr
          refine ⟨by rw [← flushes_congr q a1 b1 h1]; exact hr1, ?_⟩
          rw [← scanLine_congr q a1 b1 h1]
          exact ih (b2 :: bs2) (scanLine q a1) h2 hr2

/-- Transport a chunk chain along the edge-stripping of its chunks and
residue (edge-stripping preserves each line's stripped text). -/
theorem chunkChain_edge (cs : List (List Str)) : ∀ (r : List Str) (q : QState),
    chunkChain q cs r → chunkChain q (cs.map edgeStrip) (edgeStrip r) := by
  induction cs with
  | nil =>
    intro r q h
    exact noFlushRun_congr r (edgeStrip r) q (map_pystrip_edgeStrip r).symm h
  | cons c cs ih =>
    intro r q h
    obtain ⟨h1, h2⟩ := h
    refine ⟨chunkRun_congr c (edgeStrip c) q (map_pystrip_edgeStrip c).symm h1, ?_⟩
    rw [show qList q (edgeStrip c) = qList q c from
      qList_congr (edgeStrip c) c q (map_pystrip_edgeStrip c)]
    exact ih r (qList q c) h2

/-! ### Splitter idempotence (C6): kept statements and final assembly -/

theorem edgeStrip_ne_nil (c : List Str) (h : c ≠ []) : edgeStrip c ≠ [] := by
  cases c with
  | nil => exact absurd rfl h
  | cons l rest =>
    cases rest with
    | nil => exact List.cons_ne_nil _ _
    | cons a b => exact List.cons_ne_nil _ _

theorem mem_edgeStripR (ls : List Str) :
    ∀ x ∈ edgeStripR ls, ∃ y ∈ ls, x = y ∨ x = rstrip y := by
  induction ls with
  | nil => intro x hx; cases hx
  | cons l rest ih =>
    cases rest with
    | nil =>
      intro x hx
      cases hx with
      | head => exact ⟨l, List.mem_cons_self _ _, Or.inr rfl⟩
      | tail _ h2 => cases h2
    | cons l2 r2 =>
      intro x hx
      cases hx with
      | head => exact ⟨l, List.mem_cons_self _ _, Or.inl rfl⟩
      | tail _ h2 =>
        rcases ih x h2 with ⟨y, hy, hxy⟩
        exact ⟨y, List.mem_cons_of_mem _ hy, hxy⟩

theorem mem_edgeStrip (ls : List Str) :
    ∀ x ∈ edgeStrip ls,
      ∃ y ∈ ls, x = y ∨ x = lstrip y ∨ x = rstrip y ∨ x = pystrip y := by
  cases ls with
  | nil => intro x hx; cases hx
  | cons l rest =>
    cases rest with
    | nil =>
      intro x hx
      cases hx with
      | head => exact ⟨l, List.mem_cons_self _ _, Or.inr (Or.inr (Or.inr rfl))⟩
      | tail _ h2 => cases h2
    | cons l2 r2 =>
      intro x hx
      cases hx with
      | head => exact ⟨l, List.mem_cons_self _ _, Or.inr (Or.inl rfl)⟩
      | tail _ h2 =>
        rcases mem_edgeStripR (l2 :: r2) x h2 with ⟨y, hy, hxy⟩
        refine ⟨y, List.mem_cons_of_mem _ hy, ?_⟩
        rcases hxy with h | h
        · exact Or.inl h
        · exact Or.inr (Or.inr (Or.inl h))

theorem noNl_mem_edgeStrip (c : List Str) (hnl : ∀ l ∈ c, noNl l) :
    ∀ x ∈ edgeStrip c, noNl x := by
  intro x hx
  rcases mem_edgeStrip c x hx with ⟨y, hy, hxy⟩
  have hny := hnl y hy
  rcases hxy with h | h | h | h
  · exact h ▸ hny
  · exact h ▸ noNl_lstrip y hny
  · exact h ▸ noNl_rstrip y hny
  · exact h ▸ noNl_pystrip y hny

theorem clean_mem_edgeStrip (c : List Str) (hcl : ∀ l ∈ c, cleanLine l) :
    ∀ x ∈ edgeStrip c, cleanLine x := by
  intro x hx
  have hmem : pystrip x ∈ (edgeStrip c).map pystrip := List.mem_map_of_mem _ hx
  rw [map_pystrip_edgeStrip] at hmem
  rcases List.mem_map.mp hmem with ⟨y, hy, hxy⟩
  unfold cleanLine
  rw [isBlankOrComment_congr x y hxy.symm]
  exact hcl y hy

theorem pystrip_ne_of_clean (c : List Str) (hcl : ∀ l ∈ c, cleanLine l) :
    ∀ l ∈ c, pystrip l ≠ [] := fun l hl => clean_pystrip_ne l (hcl l hl)

theorem mkStmt_eq_joinNl_edge (c : List Str) (hne : c ≠ [])
    (hcl : ∀ l ∈ c, cleanLine l) : mkStmt c = joinNl (edgeStrip c) :=
  pystrip_joinNl c hne (pystrip_ne_of_clean c hcl)

theorem mkStmt_ne_nil (c : List Str) (hne : c ≠ [])
    (hcl : ∀ l ∈ c, cleanLine l) : mkStmt c ≠ [] := by
  rw [mkStmt_eq_joinNl_edge c hne hcl]
  cases c with
  | nil => exact absurd rfl hne
  | cons c1 rest =>
    cases rest with
    | nil =>
      show pystrip c1 ≠ []
      exact clean_pystrip_ne c1 (hcl c1 (List.mem_cons_self _ _))
    | cons c2 r2 =>
      show joinNl (lstrip c1 :: edgeStripR (c2 :: r2)) ≠ []
      rw [joinNl_cons _ _ (edgeStripR_ne_nil _ (List.cons_ne_nil _ _))]
      intro he
      rcases List.append_eq_nil.mp he with ⟨_, h2⟩
      cases h2

theorem splitOnNl_mkStmt (c : List Str) (hne : c ≠ [])
    (hcl : ∀ l ∈ c, cleanLine l) (hnl : ∀ l ∈ c, noNl l) :
    splitOnNl (mkStmt c) = edgeStrip c := by
  rw [mkStmt_eq_joinNl_edge c hne hcl]
  exact splitOnNl_joinNl (edgeStrip c) (edgeStrip_ne_nil c hne) (noNl_mem_edgeStrip c hnl)

theorem keepStmt_mkStmt (c : List Str) (hne : c ≠ [])
    (hcl : ∀ l ∈ c, cleanLine l) (hnl : ∀ l ∈ c, noNl l) :
    keepStmt (mkStmt c) = true := by
  unfold keepStmt
  have h1 : (mkStmt c).isEmpty = false := by
    cases hm : mkStmt c
    · exact absurd hm (mkStmt_ne_nil c hne hcl)
    · rfl
  have h2 : (splitOnNl (mkStmt c)).all isBlankOrComment = false := by
    rw [splitOnNl_mkStmt c hne hcl hnl]
    cases he : edgeStrip c with
    | nil => exact absurd he (edgeStrip_ne_nil c hne)
    | cons x xs =>
      have hx : cleanLine x :=
        clean_mem_edgeStrip c hcl x (he ▸ List.mem_cons_self x xs)
      rw [List.all_cons]
      unfold cleanLine at hx
      rw [hx]
      rfl
  rw [h1, h2]
  rfl

theorem emitStmt_eq (c : List Str) (hne : c ≠ [])
    (hcl : ∀ l ∈ c, cleanLine l) (hnl : ∀ l ∈ c, noNl l) :
    emitStmt c = [mkStmt c] := by
  unfold emitStmt
  rw [keepStmt_mkStmt c hne hcl hnl, if_pos rfl]

theorem mkStmt_edgeStrip (c : List Str) (hne : c ≠ [])
    (hcl : ∀ l ∈ c, cleanLine l) :
    mkStmt (edgeStrip c) = mkStmt c := by
  unfold mkStmt
  rw [← pystrip_joinNl c hne (pystrip_ne_of_clean c hcl)]
  exact pystrip_idem _

theorem flatten_map_emitStmt (cs : List (List Str))
    (h : ∀ c ∈ cs, emitStmt c = [mkStmt c]) :
    (cs.map emitStmt).flatten = cs.map mkStmt := by
  induction cs with
  | nil => rfl
  | cons c cs ih =>
    rw [List.map_cons, List.flatten_cons, h c (List.mem_cons_self _ _), List.map_cons,
      ih (fun x hx => h x (List.mem_cons_of_mem _ hx))]
    rfl

/-- C6: `split_sql_statements` is idempotent — re-joining the statement list
with newlines into one script and splitting again reproduces exactly the
same statement list. -/
theorem C6_split_idempotent (s : Str) :
    split_sql_statements (joinNl (split_sql_statements s))
      = split_sql_statements s := by
  cases hc : chunksOf initQ (cleanLines s) with
  | mk cs r =>
    have hchain : chunkChain initQ cs r := by
      have h := chunksOf_chain (cleanLines s) initQ
      rw [hc] at h
      exact h
    have hflat : cs.flatten ++ r = cleanLines s := by
      have h := chunksOf_flatten initQ (cleanLines s)
      rw [hc] at h
      exact h
    have hcsub : ∀ c ∈ cs, ∀ l ∈ c, l ∈ cleanLines s := by
      intro c hcm l hl
      rw [← hflat]
      exact List.mem_append_left _ (List.mem_flatten.mpr ⟨c, hcm, hl⟩)
    have hrsub : ∀ l ∈ r, l ∈ cleanLines s := by
      intro l hl
      rw [← hflat]
      exact List.mem_append_right _ hl
    have hccl : ∀ c ∈ cs, ∀ l ∈ c, cleanLine l :=
      fun c hcm l hl => cleanLines_clean s l (hcsub c hcm l hl)
    have hcnl : ∀ c ∈ cs, ∀ l ∈ c, noNl l :=
      fun c hcm l hl => cleanLines_noNl s l (hcsub c hcm l hl)
    have hrcl : ∀ l ∈ r, cleanLine l := fun l hl => cleanLines_clean s l (hrsub l hl)
    have hrnl : ∀ l ∈ r, noNl l := fun l hl => cleanLines_noNl s l (hrsub l hl)
    have hcne : ∀ c ∈ cs, c ≠ [] := chunkChain_ne_nil initQ cs r hchain
    have hemit : ∀ c ∈ cs, emitStmt c = [mkStmt c] :=
      fun c hcm => emitStmt_eq c (hcne c hcm) (hccl c hcm) (hcnl c hcm)
    have hsplit : split_sql_statements s
        = cs.map mkStmt ++ (if r = [] then [] else [mkStmt r]) := by
      rw [split_spec s, hc]
      dsimp only
      rw [flatten_map_emitStmt cs hemit]
      congr 1
      by_cases hre : r = []
      · rw [if_pos hre, if_pos hre]
      · rw [if_neg hre, if_neg hre]
        exact emitStmt_eq r hre hrcl hrnl
    by_cases hnil : cs = [] ∧ r = []
    · obtain ⟨h1, h2⟩ := hnil
      subst h1
      subst h2
      have hempty : split_sql_statements s = [] := by
        rw [hsplit]
        rfl
      rw [hempty]
      rfl
    · have hstmts_ne : cs.map mkStmt ++ (if r = [] then [] else [mkStmt r]) ≠ [] := by
        intro he
        rcases List.append_eq_nil.mp he with ⟨hm, hi⟩
        have hcs : cs = [] := List.map_eq_nil_iff.mp hm
        by_cases hre : r = []
        · exact hnil ⟨hcs, hre⟩
        · rw [if_neg hre] at hi
          cases hi
      have hlines : splitOnNl (joinNl (split_sql_statements s))
          = (cs.map edgeStrip).flatten ++ edgeStrip r := by
        rw [hsplit, splitOnNl_joinNl_map _ hstmts_ne]
        rw [List.map_append, List.map_map, List.flatten_append]
        congr 1
        · congr 1
          apply List.map_congr_left
          intro c hcm
          show splitOnNl (mkStmt c) = edgeStrip c
          exact splitOnNl_mkStmt c (hcne c hcm) (hccl c hcm) (hcnl c hcm)
        · by_cases hre : r = []
          · subst hre
            rw [if_pos rfl]
            rfl
          · rw [if_neg hre]
            show (splitOnNl (mkStmt r)) ++ [].flatten = edgeStrip r
            rw [splitOnNl_mkStmt r hre hrcl hrnl]
            simp
      have hclean2 : ∀ l ∈ (cs.map edgeStrip).flatten ++ edgeStrip r, cleanLine l := by
        intro l hl
        rcases List.mem_append.mp hl with h | h
        · rcases List.mem_flatten.mp h with ⟨ec, hec, hl2⟩
          rcases List.mem_map.mp hec with ⟨c, hcm, hceq⟩
          subst hceq
          exact clean_mem_edgeStrip c (hccl c hcm) l hl2
        · exact clean_mem_edgeStrip r hrcl l h
      have hcl2 : cleanLines (joinNl (split_sql_statements s))
          = (cs.map edgeStrip).flatten ++ edgeStrip r := by
        unfold cleanLines
        rw [hlines]
        apply List.filter_eq_self.mpr
        intro a ha
        have h := hclean2 a ha
        unfold cleanLine at h
        rw [h]
        rfl
      have hchain2 : chunkChain initQ (cs.map edgeStrip) (edgeStrip r) :=
        chunkChain_edge cs r initQ hchain
      have hc2 : chunksOf initQ (cleanLines (joinNl (split_sql_statements s)))
          = (cs.map edgeStrip, edgeStrip r) := by
        rw [hcl2]
        exact chunksOf_of_chain initQ (cs.map edgeStrip) (edgeStrip r) hchain2
      have hemit2 : ∀ ec ∈ cs.map edgeStrip, emitStmt ec = [mkStmt ec] := by
        intro ec hec
        rcases List.mem_map.mp hec with ⟨c, hcm, hceq⟩
        subst hceq
        exact emitStmt_eq (edgeStrip c) (edgeStrip_ne_nil c (hcne c hcm))
          (clean_mem_edgeStrip c (hccl c hcm)) (noNl_mem_edgeStrip c (hcnl c hcm))
      rw [split_spec (joinNl (split_sql_statements s)), hc2]
      dsimp only
      rw [flatten_map_emitStmt (cs.map edgeStrip) hemit2]
      rw [List.map_map]
      have hmapeq : cs.map (mkStmt ∘ edgeStrip) = cs.map mkStmt :=
        List.map_congr_left
          (fun c hcm => mkStmt_edgeStrip c (hcne c hcm) (hccl c hcm))
      rw [hmapeq, hsplit]
      congr 1
      by_cases hre : r = []
      · subst hre
        rfl
      · rw [if_neg hre, if_neg (fun he => hre (by
          cases hr : r with
          | nil => rfl
          | cons a as =>
            rw [hr] at he
            exact absurd he (edgeStrip_ne_nil (a :: as) (List.cons_ne_nil a as))))]
        rw [emitStmt_eq (edgeStrip r) (edgeStrip_ne_nil r hre)
          (clean_mem_edgeStrip r hrcl) (noNl_mem_edgeStrip r hrnl)]
        rw [mkStmt_edgeStrip r hre hrcl]

end RebuildWorker
